import Mathlib

set_option maxHeartbeats 1000000

/-!
Verification of the yoco configuration loader (`yoco.py`).

The Python module is shallowly embedded: YAML values become the inductive
type `Value`, Python dictionaries become insertion-ordered association
lists, and the mutually recursive loading functions (`load_config`,
`load_config_from_file`, `_resolve_config_key`, `_resolve_config_list`,
`_resolve_config_dict`) become a single fuel-indexed interpreter `run`
over a `Call` descriptor.  The filesystem and the YAML parser are external
collaborators of the module and are modelled as an environment `FS`
mapping resolved paths to already-parsed mappings.  Python dynamic type
errors (`in` / item assignment on non-dicts) and the module's own
`TypeError` raise are modelled by the error type `Err`.
-/

/-- A configuration value: scalar (string, integer, boolean, null),
sequence, or string-keyed mapping, mirroring the values the YAML
collaborator delivers to `yoco.py`. -/
inductive Value where
  | str (s : String)
  | int (n : Int)
  | bool (b : Bool)
  | null
  | list (l : List Value)
  | dict (d : List (String × Value))
  deriving Repr

/-- A Python dictionary with string keys: an insertion-ordered association
list. -/
abbrev Dict := List (String × Value)

/-- `d[k]` lookup on a Python dict: the entry for key `k`. -/
def getKey : Dict → String → Option Value
  | [], _ => none
  | (k', v) :: rest, k => if k' = k then some v else getKey rest k

/-- `k in d` on a Python dict. -/
def hasKey (d : Dict) (k : String) : Bool :=
  (getKey d k).isSome

/-- `d[k] = v` on a Python dict: replaces the existing entry in place,
otherwise appends (insertion order). -/
def setKey : Dict → String → Value → Dict
  | [], k, v => [(k, v)]
  | (k', v') :: rest, k, v =>
    if k' = k then (k, v) :: rest else (k', v') :: setKey rest k v

/-- `d.pop(k, None)` on a Python dict: the dict without the entry for `k`. -/
def eraseKey : Dict → String → Dict
  | [], _ => []
  | (a, b) :: rest, k =>
    if a = k then eraseKey rest k else (a, b) :: eraseKey rest k

/-- The list of keys of a dict. -/
def keysOf (d : Dict) : List String :=
  d.map Prod.fst

/-- Lookup inside a `Value` that should be a mapping; `none` on
non-mappings. -/
def lookupValue (v : Value) (k : String) : Option Value :=
  match v with
  | .dict d => getKey d k
  | _ => none

/-- `k in v` for a `Value` that should be a mapping (`false` on
non-mappings). -/
def hasKeyValue (v : Value) (k : String) : Bool :=
  (lookupValue v k).isSome

/-- Is this value a Python `dict`? -/
def Value.isDict : Value → Bool
  | .dict _ => true
  | _ => false

/-- The name of the Python runtime type of a value, as it appears in
`TypeError` messages. -/
def pyType : Value → String
  | .str _ => "str"
  | .int _ => "int"
  | .bool _ => "bool"
  | .null => "NoneType"
  | .list _ => "list"
  | .dict _ => "dict"

/-! ## `_merge_dictionaries` -/

mutual
/-- The loop of `_merge_dictionaries`: folds the entries of `added` into
`merged` (initially a copy of `start`), recursively merging when both the
value in `start` and the added value are dicts, otherwise overwriting. -/
def mergeAux (start merged : Dict) : Dict → Dict
  | [] => merged
  | (k, v) :: rest => mergeAux start (setKey merged k (mergeEntry start k v)) rest

/-- One entry of the `_merge_dictionaries` loop: the value stored for key
`k`, given the added value. -/
def mergeEntry (start : Dict) (k : String) : Value → Value
  | Value.dict ad =>
    match getKey start k with
    | some (Value.dict sd) => Value.dict (mergeAux sd sd ad)
    | _ => Value.dict ad
  | v => v
end

/-- `_merge_dictionaries(start_dict, added_dict)` restricted to two actual
dicts (the type-correct case): keys of `added` overwrite keys of `start`,
except that two dict values merge recursively.  The embedding is pure, so
the source's deep copies (non-mutation of either argument) are implicit. -/
def mergeDicts (startDict addedDict : Dict) : Dict :=
  mergeAux startDict startDict addedDict

/-- Errors surfaced by the embedded functions. -/
inductive Err where
  /-- The `raise TypeError(f"Can't parse element of type ...")` in
  `_resolve_config_key`, carrying the offending Python type name. -/
  | typeError (tyName : String)
  /-- A Python dynamic `TypeError`: `in`, indexing or item assignment on a
  value that is not a dict. -/
  | pyTypeError
  /-- `open` failed: no file at the resolved path. -/
  | fileNotFound (path : String)
  /-- Fuel exhausted (modelling artifact for the unbounded recursion of
  the source; the source has no cycle detection). -/
  | fuel
  /-- `parser.error(...)`: a general argument appeared before any
  `--name`, or a declared option is missing its value. -/
  | usageError
  deriving Repr, DecidableEq

/-- `_merge_dictionaries(start_dict, added_dict)` with the dynamically
typed `start_dict` the source can actually receive: when `start_dict` is
not a dict the loop body's `key in start_dict` / item assignment raises a
`TypeError` on the first iteration, so a non-dict start survives only when
`added_dict` is empty. -/
def mergeDictionaries (startVal : Value) (addedDict : Dict) : Except Err Value :=
  match startVal with
  | .dict d => .ok (.dict (mergeDicts d addedDict))
  | v => if addedDict.isEmpty then .ok v else .error .pyTypeError

/-! ## String primitives

Kernel-computable counterparts of the Python string operations the source
uses (`startswith`, `endswith`, `split` on a single-character separator,
`replace("--", "")`, `int(...)` digit parsing). -/

/-- Is the second list a prefix of the first? -/
def charsStart : List Char → List Char → Bool
  | _, [] => true
  | [], _ :: _ => false
  | a :: as, b :: bs => a = b && charsStart as bs

/-- Python `s.startswith(p)`. -/
def strStarts (s p : String) : Bool :=
  charsStart s.toList p.toList

/-- Python `s.endswith(p)`. -/
def strEnds (s p : String) : Bool :=
  charsStart s.toList.reverse p.toList.reverse

/-- Python `s.split(c)` for a one-character separator, on char lists. -/
def splitCharAux (c : Char) : List Char → List (List Char)
  | [] => [[]]
  | x :: rest =>
    let r := splitCharAux c rest
    if x = c then [] :: r
    else
      match r with
      | h :: t => (x :: h) :: t
      | [] => [[x]]

/-- Python `s.split(c)` for a one-character separator. -/
def splitChar (c : Char) (s : String) : List String :=
  (splitCharAux c s.toList).map List.asString

/-- Python `arg.replace("--", "")`: remove every (left-to-right,
non-overlapping) occurrence of `--`. -/
def dropDoubleDash : List Char → List Char
  | '-' :: '-' :: rest => dropDoubleDash rest
  | c :: rest => c :: dropDoubleDash rest
  | [] => []

/-- Digits of a decimal literal, as a number. -/
def digitsToNat : List Char → Option Nat
  | [] => none
  | cs => cs.foldl (fun acc? c =>
      acc?.bind fun acc =>
        if '0' ≤ c ∧ c ≤ '9' then some (acc * 10 + (c.toNat - '0'.toNat)) else none)
      (some 0)

/-- Python `int(s)` restricted to optionally-signed decimal literals,
returning `none` where `int` would raise. -/
def parseInt (s : String) : Option Int :=
  match s.toList with
  | '-' :: rest => (digitsToNat rest).map (fun n => -(n : Int))
  | cs => (digitsToNat cs).map (fun n => (n : Int))

/-! ## Path helpers (`os.path` collaborators, POSIX semantics) -/

/-- `os.path.isabs` (POSIX). -/
def isAbs (p : String) : Bool :=
  strStarts p "/"

/-- `os.path.join` (POSIX, two arguments). -/
def joinPath (a b : String) : String :=
  if strStarts b "/" then b
  else if a = "" ∨ strEnds a "/" then a ++ b
  else a ++ "/" ++ b

/-- `os.path.normpath` (POSIX): collapse repeated separators, drop `.`
components, fold `..` into the preceding component where legal. -/
def normpath (p : String) : String :=
  if p = "" then "."
  else
    let initialSlashes : Nat :=
      if strStarts p "/" then
        (if strStarts p "//" ∧ ¬ strStarts p "///" then 2 else 1)
      else 0
    let comps := splitChar '/' p
    let newComps := comps.foldl (fun acc comp =>
      if comp = "" ∨ comp = "." then acc
      else if comp ≠ ".." ∨ (initialSlashes = 0 ∧ acc = []) ∨ acc.getLast? = some ".." then
        acc ++ [comp]
      else if acc ≠ [] then acc.dropLast
      else acc) []
    let joined := String.intercalate "/" newComps
    let out := String.mk (List.replicate initialSlashes '/') ++ joined
    if out = "" then "." else out

/-- Everything up to and including the last `/` of the string. -/
def upToLastSlash (cs : List Char) : List Char :=
  (cs.reverse.dropWhile (· ≠ '/')).reverse

/-- `os.path.dirname` (POSIX): the part before the last separator, with
trailing separators stripped unless the result is all separators. -/
def dirname (p : String) : String :=
  let head := List.asString (upToLastSlash p.toList)
  if head ≠ "" ∧ ¬ (head.toList.all (· = '/')) then
    List.asString ((head.toList.reverse.dropWhile (· = '/')).reverse)
  else head

/-- The environment the module's external collaborators provide: parsed
YAML mappings stored at paths, and the home directory used by
`os.path.expanduser`.  A path exists exactly when a file is stored there. -/
structure FS where
  files : List (String × Dict)
  home : String

/-- Parsed content of the file at `p`, if it exists. -/
def fsLookup (fs : FS) (p : String) : Option Dict :=
  (fs.files.find? (fun kv => kv.1 = p)).map Prod.snd

/-- `os.path.exists`. -/
def pathExists (fs : FS) (p : String) : Bool :=
  (fsLookup fs p).isSome

/-- `os.path.expanduser`: replace a leading `~` with the home directory
(collaborator; only the `~/...` form is ever passed by the source). -/
def expanduser (fs : FS) (p : String) : String :=
  if strStarts p "~/" then fs.home ++ p.drop 1
  else if p = "~" then fs.home
  else p

/-! ## `resolve_path` -/

/-- `resolve_path(path, parent, search_paths)`.  The source function calls
itself once per search-path candidate, always with an empty search-path
list; `fuel` bounds that recursion depth so the definition is structural
(the theorem for claim C10 shows every `fuel ≥ 1` gives the same result,
i.e. the source's recursion never goes deeper than two frames).  Rules in
source order: absolute paths are normalized and returned; `~/` paths are
expanded; paths whose first segment is `.` or `..` are joined with
`parent` (default `"."`); bare paths are tried against each search path
(default `[".", ""]`) and the first existing candidate wins, else the
original path is returned. -/
def resolve_path (fuel : Nat) (fs : FS) (path : String) (parent : Option String)
    (searchPaths : Option (List String)) : String :=
  let sps := searchPaths.getD [".", ""]
  let par := parent.getD "."
  if isAbs path then normpath path
  else if strStarts path "~/" then normpath (expanduser fs path)
  else if (splitChar '/' path).headD "" = "." ∨ (splitChar '/' path).headD "" = ".." then
    normpath (joinPath par path)
  else
    (sps.findSome? fun sp =>
      match fuel with
      | 0 => none
      | fuel' + 1 =>
        let resolved := resolve_path fuel' fs (joinPath sp path) parent (some [])
        if pathExists fs resolved then some (normpath resolved) else none).getD path

/-! ## `_resolve_paths_recursively` -/

mutual
/-- `_resolve_paths_recursively(config_dict, parent)` as a pure map over
the dict (the source mutates a freshly copied dict in place): dict values
are recursed into, strings starting with `./` or `../` are joined with
`parent` and normalized, strings starting with `~/` are expanded, and
everything else — including lists — is untouched. -/
def resolve_paths_recursively (fs : FS) (p : String) : Dict → Dict
  | [] => []
  | (k, v) :: rest =>
    (k, resolvePathsValue fs p v) :: resolve_paths_recursively fs p rest

/-- The per-value case split of `_resolve_paths_recursively`. -/
def resolvePathsValue (fs : FS) (p : String) : Value → Value
  | .dict d => .dict (resolve_paths_recursively fs p d)
  | .str s =>
    if strStarts s "./" ∨ strStarts s "../" then .str (normpath (joinPath p s))
    else if strStarts s "~/" then .str (expanduser fs s)
    else .str s
  | v => v
end

/-! ## The mutually recursive loader -/

/-- A call descriptor for the five mutually recursive loading functions of
`yoco.py`. -/
inductive Call where
  /-- `load_config(config_dict, current_dict, parent, search_paths)`. -/
  | load (configDict : Dict) (currentDict : Value) (parent : Option String)
      (searchPaths : Option (List String))
  /-- `load_config_from_file(path, current_dict, parent, search_paths)`. -/
  | loadFile (path : String) (currentDict : Value) (parent : Option String)
      (searchPaths : Option (List String))
  /-- `_resolve_config_key`, which only reads `config_dict["config"]`:
  the dispatch on that value. -/
  | resolveKey (v : Value) (currentDict : Value) (parent : Option String)
      (searchPaths : Option (List String))
  /-- `_resolve_config_list(config_list, current_dict, parent, search_paths)`. -/
  | resolveList (l : List Value) (currentDict : Value) (parent : Option String)
      (searchPaths : Option (List String))
  /-- `_resolve_config_dict(config_dict, current_dict, parent, search_paths)`. -/
  | resolveDict (d : Dict) (currentDict : Value) (parent : Option String)
      (searchPaths : Option (List String))

/-- The interpreter for the five mutually recursive functions; `fuel`
decreases at every call (the source performs unbounded recursion — it has
no cycle detection — so a fuel bound is the standard total model).

* `.load`: deep-copies are implicit in the pure embedding.  If `"config"`
  is present its value is resolved into `current`; the `"config"` key is
  then popped, paths are rewritten when `parent` is given, and the
  remaining mapping is merged over the resolved current dict.
* `.loadFile`: resolves the path, derives the new parent as its dirname,
  reads and parses the file, and loads the parsed mapping.
* `.resolveKey`: dispatches on the shape of the `"config"` value; any
  shape other than string/list/dict raises the `TypeError` naming the
  offending type.
* `.resolveList`: folds the elements left to right, threading the current
  dict; elements of unexpected shape are skipped.
* `.resolveDict`: for each `{namespace: source}` entry, creates an empty
  mapping at the namespace key if the key is absent, then loads the
  source into the value at that key; a non-dict current dict raises the
  dynamic `TypeError` of `in` / item assignment as soon as there is an
  entry to process. -/
def run (fs : FS) : Nat → Call → Except Err Value
  | 0, _ => .error .fuel
  | fuel + 1, c =>
    match c with
    | .load configDict currentDict parent searchPaths => do
      let current ←
        if hasKey configDict "config" then
          run fs fuel (.resolveKey ((getKey configDict "config").getD .null)
            currentDict parent searchPaths)
        else
          pure currentDict
      let cd := eraseKey configDict "config"
      let cd := match parent with
        | some p => resolve_paths_recursively fs p cd
        | none => cd
      mergeDictionaries current cd
    | .loadFile path currentDict parent searchPaths =>
      let fullPath := resolve_path (fuel + 1) fs path parent searchPaths
      let parent' := dirname fullPath
      match fsLookup fs fullPath with
      | none => .error (.fileNotFound fullPath)
      | some content =>
        run fs fuel (.load content currentDict (some parent') searchPaths)
    | .resolveKey v currentDict parent searchPaths =>
      match v with
      | .str s => run fs fuel (.loadFile s currentDict parent searchPaths)
      | .list l => run fs fuel (.resolveList l currentDict parent searchPaths)
      | .dict d => run fs fuel (.resolveDict d currentDict parent searchPaths)
      | v => .error (.typeError (pyType v))
    | .resolveList [] currentDict _ _ => pure currentDict
    | .resolveList (e :: rest) currentDict parent searchPaths => do
      let current ←
        match e with
        | .str s => run fs fuel (.loadFile s currentDict parent searchPaths)
        | .list l => run fs fuel (.resolveList l currentDict parent searchPaths)
        | .dict d => run fs fuel (.resolveDict d currentDict parent searchPaths)
        | _ => pure currentDict
      run fs fuel (.resolveList rest current parent searchPaths)
    | .resolveDict [] currentDict _ _ => pure currentDict
    | .resolveDict ((ns, e) :: rest) currentDict parent searchPaths =>
      match currentDict with
      | .dict cur =>
        let cur := if hasKey cur ns then cur else setKey cur ns (.dict [])
        let subCurrent := (getKey cur ns).getD .null
        do
          let newSub ←
            match e with
            | .str s => run fs fuel (.loadFile s subCurrent parent searchPaths)
            | .list l => run fs fuel (.resolveList l subCurrent parent searchPaths)
            | .dict d => run fs fuel (.resolveDict d subCurrent parent searchPaths)
            | _ => pure subCurrent
          run fs fuel (.resolveDict rest (.dict (setKey cur ns newSub)) parent searchPaths)
      | _ => .error .pyTypeError

/-- `load_config(config_dict, current_dict, parent, search_paths)`; the
source's `current_dict=None` default corresponds to passing
`Value.dict []`. -/
def load_config (fs : FS) (fuel : Nat) (configDict : Dict) (currentDict : Value)
    (parent : Option String) (searchPaths : Option (List String)) : Except Err Value :=
  run fs fuel (.load configDict currentDict parent searchPaths)

/-- `load_config_from_file(path, current_dict, parent, search_paths)`. -/
def load_config_from_file (fs : FS) (fuel : Nat) (path : String) (currentDict : Value)
    (parent : Option String) (searchPaths : Option (List String)) : Except Err Value :=
  run fs fuel (.loadFile path currentDict parent searchPaths)

/-- `_resolve_config_key`'s dispatch on the value of the `"config"`
key. -/
def resolve_config_key (fs : FS) (fuel : Nat) (v : Value) (currentDict : Value)
    (parent : Option String) (searchPaths : Option (List String)) : Except Err Value :=
  run fs fuel (.resolveKey v currentDict parent searchPaths)

/-- `_resolve_config_list`. -/
def resolve_config_list (fs : FS) (fuel : Nat) (l : List Value) (currentDict : Value)
    (parent : Option String) (searchPaths : Option (List String)) : Except Err Value :=
  run fs fuel (.resolveList l currentDict parent searchPaths)

/-- `_resolve_config_dict`. -/
def resolve_config_dict (fs : FS) (fuel : Nat) (d : Dict) (currentDict : Value)
    (parent : Option String) (searchPaths : Option (List String)) : Except Err Value :=
  run fs fuel (.resolveDict d currentDict parent searchPaths)

/-! ## `load_config_from_args`

The command-line parser (`argparse`) is an external collaborator; it is
modelled by its capability interface: declared options with defaults and
`parse_known_args`, which walks the tokens, consumes `--name value` pairs
for declared names (type-converting via the option's declared type) and
returns everything else, in order, as leftover tokens. -/

/-- A declared `argparse` option: destination name, default value, and
whether the declared type converts values with `int`. -/
structure ArgOption where
  dest : String
  defaultVal : Option Value
  isInt : Bool

/-- Type conversion the parser applies to a declared option's value
(`type=int` or plain string); a bad literal makes `argparse` exit. -/
def convertKnown (o : ArgOption) (s : String) : Except Err Value :=
  if o.isInt then
    match parseInt s with
    | some n => .ok (.int n)
    | none => .error .usageError
  else .ok (.str s)

/-- Record an explicitly provided value for a declared destination. -/
def updateKnown : List (String × Option Value) → String → Value → List (String × Option Value)
  | [], k, v => [(k, some v)]
  | (k', v') :: rest, k, v =>
    if k' = k then (k, some v) :: rest else (k', v') :: updateKnown rest k v

/-- The walk of `parse_known_args`: `--name value` pairs for declared
names are consumed, all other tokens are leftovers (in order). -/
def parseKnownAux (opts : List ArgOption) :
    List (String × Option Value) → List String → List String →
    Except Err (List (String × Option Value) × List String)
  | known, leftovers, [] => .ok (known, leftovers.reverse)
  | known, leftovers, t :: ts =>
    if strStarts t "--" then
      match opts.find? (fun o => o.dest = t.drop 2) with
      | some o =>
        match ts with
        | [] => .error .usageError
        | v :: ts' => do
          let val ← convertKnown o v
          parseKnownAux opts (updateKnown known o.dest val) leftovers ts'
      | none => parseKnownAux opts known (t :: leftovers) ts
    else parseKnownAux opts known (t :: leftovers) ts

/-- `parser.parse_known_args(args)`: values for the declared options
(defaults where not explicitly provided, as in `vars(known)`) and the
list of leftover tokens. -/
def parse_known_args (opts : List ArgOption) (args : List String) :
    Except Err (List (String × Option Value) × List String) :=
  parseKnownAux opts (opts.map fun o => (o.dest, o.defaultVal)) [] args

/-- The YAML collaborator's scalar conversion used on general argument
values (`_yaml.load(value)` on a scalar string): booleans, null, decimal
integers, everything else a plain string. -/
def yamlLoadScalar (s : String) : Value :=
  if s = "true" ∨ s = "True" then .bool true
  else if s = "false" ∨ s = "False" then .bool false
  else if s = "null" ∨ s = "~" ∨ s = "" then .null
  else
    match parseInt s with
    | some n => .int n
    | none => .str s

/-- `arg_dict[key] = []`: reset the token list stored for a key (original
insertion position is kept, as in a Python dict). -/
def argDictReset : List (String × List String) → String → List (String × List String)
  | [], k => [(k, [])]
  | (k', vs) :: rest, k =>
    if k' = k then (k, []) :: rest else (k', vs) :: argDictReset rest k

/-- `arg_dict[current_key].append(arg)`. -/
def argDictAppend : List (String × List String) → String → String → List (String × List String)
  | [], _, _ => []
  | (k', vs) :: rest, k, v =>
    if k' = k then (k', vs ++ [v]) :: rest else (k', vs) :: argDictAppend rest k v

/-- The leftover-token walk of `load_config_from_args`: `--key` tokens
(with every `--` occurrence removed, as `arg.replace("--", "")` does)
open a fresh value list, other tokens append to the list of the most
recent key; a token before any key is a usage error. -/
def buildArgDict : Option String → List (String × List String) → List String →
    Except Err (List (String × List String))
  | _, acc, [] => .ok acc
  | currentKey, acc, t :: ts =>
    if strStarts t "--" then
      let k := String.mk (dropDoubleDash t.toList)
      buildArgDict (some k) (argDictReset acc k) ts
    else
      match currentKey with
      | none => .error .usageError
      | some k => buildArgDict (some k) (argDictAppend acc k t) ts

/-- Turn a dot-separated key hierarchy into the nested single-entry
dicts `load_config_from_args` builds (`a.b.c` ↦ `{a: {b: {c: value}}}`). -/
def buildNested : List String → Value → Dict
  | [], _ => []
  | [k], v => [(k, v)]
  | k :: rest, v => [(k, .dict (buildNested rest v))]

/-- `load_config_from_args(parser, args, search_paths)`: parse the
declared options twice (once with all non-`config` defaults suppressed,
once normally), resolve the explicitly provided values through
`load_config`, fold the leftover `--key value` pairs in (the `config`
hierarchy loads files at lower priority, anything else overrides at
higher priority), and finally merge the declared defaults underneath. -/
def load_config_from_args (fs : FS) (fuel : Nat) (opts : List ArgOption)
    (args : List String) (searchPaths : Option (List String)) : Except Err Value := do
  let noDefaultOpts := opts.map (fun o => if o.dest = "config" then o else ⟨o.dest, none, o.isInt⟩)
  let parsed ← parse_known_args noDefaultOpts args
  let known := parsed.1
  let otherArgs := parsed.2
  let parsedWithDefault ← parse_known_args opts args
  let configDict : Dict := known.filterMap (fun kv => kv.2.map (fun v => (kv.1, v)))
  let withDefaultConfigDict : Dict :=
    eraseKey (parsedWithDefault.1.filterMap (fun kv => kv.2.map (fun v => (kv.1, v)))) "config"
  let configVal ← run fs fuel (.load configDict (.dict []) none searchPaths)
  let argDict ← buildArgDict none [] otherArgs
  let argPairs := argDict.map (fun kv => (kv.1, String.intercalate " " kv.2))
  let configVal ← argPairs.foldlM (fun cfg p => do
      let hierarchy := splitChar '.' p.1
      let addDict := buildNested hierarchy (yamlLoadScalar p.2)
      if hierarchy.headD "" = "config" then do
        let add ← run fs fuel (.load addDict (.dict []) none searchPaths)
        match cfg with
        | Value.dict d => run fs fuel (.load d add none searchPaths)
        | _ => .error .pyTypeError
      else
        run fs fuel (.load addDict cfg none none)) configVal
  match configVal with
  | Value.dict d => mergeDictionaries (.dict withDefaultConfigDict) d
  | _ => .error .pyTypeError

/-! ## Dictionary lemmas -/

theorem getKey_setKey (d : Dict) (k : String) (v : Value) (q : String) :
    getKey (setKey d k v) q = if k = q then some v else getKey d q := by
  induction d with
  | nil => simp [setKey, getKey]
  | cons hd rest ih =>
    obtain ⟨a, b⟩ := hd
    by_cases hak : a = k
    · subst hak
      simp only [setKey, if_pos rfl, getKey]
      by_cases haq : a = q
      · simp [haq]
      · simp [haq]
    · simp only [setKey, if_neg hak, getKey]
      by_cases haq : a = q
      · subst haq
        have hkq : ¬ (k = a) := fun h => hak h.symm
        simp [hkq]
      · simp [haq, ih]

theorem getKey_eraseKey (d : Dict) (k q : String) :
    getKey (eraseKey d k) q = if q = k then none else getKey d q := by
  induction d with
  | nil => simp [eraseKey, getKey]
  | cons hd rest ih =>
    obtain ⟨a, b⟩ := hd
    by_cases hak : a = k
    · subst hak
      rw [show eraseKey ((a, b) :: rest) a = eraseKey rest a by simp [eraseKey]]
      rw [ih]
      by_cases hq : q = a
      · simp [hq]
      · have haq : ¬ (a = q) := fun h => hq h.symm
        simp [getKey, hq, haq]
    · simp only [eraseKey, if_neg hak, getKey]
      by_cases haq : a = q
      · subst haq
        have hqk : ¬ (a = k) := hak
        simp [getKey, hqk]
      · simp [getKey, haq, ih]

theorem mem_keysOf (d : Dict) (k : String) :
    k ∈ keysOf d ↔ (getKey d k).isSome := by
  induction d with
  | nil => simp [keysOf, getKey]
  | cons hd rest ih =>
    obtain ⟨a, b⟩ := hd
    by_cases h : a = k
    · subst h; simp [keysOf, getKey]
    · have h' : ¬ (k = a) := fun hh => h hh.symm
      have hc : keysOf ((a, b) :: rest) = a :: keysOf rest := rfl
      rw [hc, List.mem_cons]
      simp only [getKey, if_neg h]
      simp [h', ih]

theorem getKey_eq_none_of_not_mem {d : Dict} {k : String} (h : k ∉ keysOf d) :
    getKey d k = none := by
  rcases hk : getKey d k with _ | v
  · rfl
  · exact absurd ((mem_keysOf d k).2 (by simp [hk])) h

theorem mem_keysOf_setKey (d : Dict) (k : String) (v : Value) (q : String) :
    q ∈ keysOf (setKey d k v) ↔ q ∈ keysOf d ∨ q = k := by
  rw [mem_keysOf, getKey_setKey, mem_keysOf]
  by_cases h : k = q
  · simp [h]
  · have h' : ¬ (q = k) := fun hh => h hh.symm
    simp [h, h']

theorem setKey_setKey (d : Dict) (k : String) (v w : Value) :
    setKey (setKey d k v) k w = setKey d k w := by
  induction d with
  | nil => simp [setKey]
  | cons hd rest ih =>
    obtain ⟨a, b⟩ := hd
    by_cases hak : a = k
    · subst hak; simp [setKey]
    · simp [setKey, hak, ih]

theorem mem_keysOf_eraseKey (d : Dict) (k q : String) :
    q ∈ keysOf (eraseKey d k) ↔ q ∈ keysOf d ∧ q ≠ k := by
  rw [mem_keysOf, getKey_eraseKey, mem_keysOf]
  by_cases h : q = k <;> simp [h]

theorem nodup_keysOf_eraseKey {d : Dict} (h : (keysOf d).Nodup) (k : String) :
    (keysOf (eraseKey d k)).Nodup := by
  induction d with
  | nil => simp [eraseKey, keysOf]
  | cons hd rest ih =>
    obtain ⟨a, b⟩ := hd
    have hm : a ∉ keysOf rest ∧ (keysOf rest).Nodup := by
      simpa [keysOf, List.nodup_cons] using h
    by_cases hak : a = k
    · simp only [eraseKey, if_pos hak]
      exact ih hm.2
    · simp only [eraseKey, if_neg hak, keysOf, List.map_cons, List.nodup_cons]
      constructor
      · intro hmem
        exact hm.1 ((mem_keysOf_eraseKey rest k a).1 hmem).1
      · exact ih hm.2

theorem getKey_resolve_paths (fs : FS) (p : String) (d : Dict) (k : String) :
    getKey (resolve_paths_recursively fs p d) k =
      (getKey d k).map (resolvePathsValue fs p) := by
  induction d with
  | nil => simp [resolve_paths_recursively, getKey]
  | cons hd rest ih =>
    obtain ⟨k₀, v₀⟩ := hd
    by_cases h₀ : k₀ = k <;> simp_all [resolve_paths_recursively, getKey]

theorem keysOf_resolve_paths (fs : FS) (p : String) (d : Dict) :
    keysOf (resolve_paths_recursively fs p d) = keysOf d := by
  induction d with
  | nil => simp [resolve_paths_recursively, keysOf]
  | cons hd rest ih =>
    obtain ⟨k₀, v₀⟩ := hd
    simp_all [resolve_paths_recursively, keysOf]

/-! ## Merge lemmas -/

theorem getKey_mergeAux (start : Dict) :
    ∀ (added : Dict), (keysOf added).Nodup → ∀ (merged : Dict) (k : String),
    getKey (mergeAux start merged added) k =
      match getKey added k with
      | some v => some (mergeEntry start k v)
      | none => getKey merged k := by
  intro added
  induction added with
  | nil => intro _ merged k; simp [mergeAux, getKey]
  | cons hd rest ih =>
    obtain ⟨k₀, v₀⟩ := hd
    intro hnd merged k
    have hsplit : k₀ ∉ keysOf rest ∧ (keysOf rest).Nodup := by
      simpa [keysOf, List.nodup_cons] using hnd
    simp only [mergeAux]
    rw [ih hsplit.2]
    by_cases hk : k₀ = k
    · subst hk
      rw [getKey_eq_none_of_not_mem hsplit.1]
      simp [getKey, getKey_setKey]
    · simp only [getKey, if_neg hk]
      rcases h : getKey rest k with _ | v <;> simp [getKey_setKey, hk]

theorem getKey_mergeDicts (a b : Dict) (hb : (keysOf b).Nodup) (k : String) :
    getKey (mergeDicts a b) k =
      match getKey a k, getKey b k with
      | some (Value.dict da), some (Value.dict db) => some (Value.dict (mergeDicts da db))
      | _, some vb => some vb
      | va, none => va := by
  rw [mergeDicts, getKey_mergeAux a b hb]
  rcases hbk : getKey b k with _ | vb
  · rcases hak : getKey a k with _ | va
    · rfl
    · cases va <;> rfl
  · rcases hak : getKey a k with _ | va
    · cases vb <;> simp [mergeEntry, hak, mergeDicts]
    · cases vb <;> cases va <;> simp [mergeEntry, hak, mergeDicts]

theorem mem_keysOf_mergeAux (start : Dict) :
    ∀ (added merged : Dict) (k : String),
    k ∈ keysOf (mergeAux start merged added) ↔ k ∈ keysOf merged ∨ k ∈ keysOf added := by
  intro added
  induction added with
  | nil => intro merged k; simp [mergeAux, keysOf]
  | cons hd rest ih =>
    obtain ⟨k₀, v₀⟩ := hd
    intro merged k
    simp only [mergeAux]
    rw [ih]
    rw [mem_keysOf_setKey]
    simp [keysOf]
    tauto

theorem mem_keysOf_mergeDicts (a b : Dict) (k : String) :
    k ∈ keysOf (mergeDicts a b) ↔ k ∈ keysOf a ∨ k ∈ keysOf b :=
  mem_keysOf_mergeAux a b a k

/-! ## `Except` helpers -/

theorem except_bind_ok {α β : Type} {m : Except Err α} {f : α → Except Err β} {r : β} :
    (m >>= f) = .ok r ↔ ∃ a, m = .ok a ∧ f a = .ok r := by
  cases m <;> simp [Bind.bind, Except.bind]

theorem except_bind_error {α β : Type} {m : Except Err α} {f : α → Except Err β} {e : Err} :
    (m >>= f) = .error e ↔ m = .error e ∨ ∃ a, m = .ok a ∧ f a = .error e := by
  cases m <;> simp [Bind.bind, Except.bind]

theorem mergeDictionaries_ok {s : Value} {a : Dict} {r : Value} (hne : a ≠ []) :
    mergeDictionaries s a = .ok r → ∃ sd, s = .dict sd ∧ r = .dict (mergeDicts sd a) := by
  intro h
  cases s
  case dict sd =>
    refine ⟨sd, rfl, ?_⟩
    simp only [mergeDictionaries, Except.ok.injEq] at h
    exact h.symm
  all_goals exfalso; simp [mergeDictionaries, List.isEmpty_iff, hne] at h

/-! ## Unfolding equations for `run` -/

theorem run_zero (fs : FS) (c : Call) : run fs 0 c = .error .fuel := rfl

theorem run_load (fs : FS) (fuel : Nat) (cd : Dict) (cur : Value)
    (par : Option String) (sp : Option (List String)) :
    run fs (fuel + 1) (.load cd cur par sp) =
      if hasKey cd "config" then
        run fs fuel (.resolveKey ((getKey cd "config").getD .null) cur par sp) >>=
          fun current =>
            mergeDictionaries current
              (match par with
               | some p => resolve_paths_recursively fs p (eraseKey cd "config")
               | none => eraseKey cd "config")
      else
        mergeDictionaries cur
          (match par with
           | some p => resolve_paths_recursively fs p (eraseKey cd "config")
           | none => eraseKey cd "config") := rfl

theorem run_loadFile (fs : FS) (fuel : Nat) (path : String) (cur : Value)
    (par : Option String) (sp : Option (List String)) :
    run fs (fuel + 1) (.loadFile path cur par sp) =
      match fsLookup fs (resolve_path (fuel + 1) fs path par sp) with
      | none => .error (.fileNotFound (resolve_path (fuel + 1) fs path par sp))
      | some content =>
        run fs fuel
          (.load content cur (some (dirname (resolve_path (fuel + 1) fs path par sp))) sp) := rfl

theorem run_resolveKey (fs : FS) (fuel : Nat) (v : Value) (cur : Value)
    (par : Option String) (sp : Option (List String)) :
    run fs (fuel + 1) (.resolveKey v cur par sp) =
      match v with
      | .str s => run fs fuel (.loadFile s cur par sp)
      | .list l => run fs fuel (.resolveList l cur par sp)
      | .dict d => run fs fuel (.resolveDict d cur par sp)
      | v => .error (.typeError (pyType v)) := rfl

theorem run_resolveList_nil (fs : FS) (fuel : Nat) (cur : Value)
    (par : Option String) (sp : Option (List String)) :
    run fs (fuel + 1) (.resolveList [] cur par sp) = .ok cur := rfl

theorem run_resolveList_cons (fs : FS) (fuel : Nat) (e : Value) (rest : List Value)
    (cur : Value) (par : Option String) (sp : Option (List String)) :
    run fs (fuel + 1) (.resolveList (e :: rest) cur par sp) =
      match e with
      | .str s => run fs fuel (.loadFile s cur par sp) >>= fun current =>
          run fs fuel (.resolveList rest current par sp)
      | .list l => run fs fuel (.resolveList l cur par sp) >>= fun current =>
          run fs fuel (.resolveList rest current par sp)
      | .dict d => run fs fuel (.resolveDict d cur par sp) >>= fun current =>
          run fs fuel (.resolveList rest current par sp)
      | _ => run fs fuel (.resolveList rest cur par sp) := rfl

theorem run_resolveDict_nil (fs : FS) (fuel : Nat) (cur : Value)
    (par : Option String) (sp : Option (List String)) :
    run fs (fuel + 1) (.resolveDict [] cur par sp) = .ok cur := rfl

theorem run_resolveDict_cons (fs : FS) (fuel : Nat) (ns : String) (e : Value)
    (rest : Dict) (cur : Value) (par : Option String) (sp : Option (List String)) :
    run fs (fuel + 1) (.resolveDict ((ns, e) :: rest) cur par sp) =
      match cur with
      | .dict cd =>
        match e with
        | .str s =>
          run fs fuel (.loadFile s
            ((getKey (if hasKey cd ns then cd else setKey cd ns (.dict [])) ns).getD .null)
            par sp) >>= fun newSub =>
            run fs fuel (.resolveDict rest
              (.dict (setKey (if hasKey cd ns then cd else setKey cd ns (.dict [])) ns newSub))
              par sp)
        | .list l =>
          run fs fuel (.resolveList l
            ((getKey (if hasKey cd ns then cd else setKey cd ns (.dict [])) ns).getD .null)
            par sp) >>= fun newSub =>
            run fs fuel (.resolveDict rest
              (.dict (setKey (if hasKey cd ns then cd else setKey cd ns (.dict [])) ns newSub))
              par sp)
        | .dict d =>
          run fs fuel (.resolveDict d
            ((getKey (if hasKey cd ns then cd else setKey cd ns (.dict [])) ns).getD .null)
            par sp) >>= fun newSub =>
            run fs fuel (.resolveDict rest
              (.dict (setKey (if hasKey cd ns then cd else setKey cd ns (.dict [])) ns newSub))
              par sp)
        | _ =>
          run fs fuel (.resolveDict rest
            (.dict (setKey (if hasKey cd ns then cd else setKey cd ns (.dict []))
              ns ((getKey (if hasKey cd ns then cd else setKey cd ns (.dict [])) ns).getD .null)))
            par sp)
      | _ => .error .pyTypeError := rfl

/-! ## Claim C3 -/

/-- **C3.** For all mappings `A` and `B` (mappings have unique keys, per
the data model), `_merge_dictionaries(A, B)` returns a mapping whose key
set is the union of the key sets of `A` and `B`; `merge(A, B)[k]` equals
`B[k]` for every key `k` of `B`, except that when both `A[k]` and `B[k]`
are mappings `merge(A, B)[k]` equals `merge(A[k], B[k])`; and every key
only in `A` keeps `A`'s value.  Non-mutation of `A` and `B` is inherent
in the pure embedding (the source deep-copies both inputs). -/
theorem C3_merge_spec (a b : Dict) (hb : (keysOf b).Nodup) (k : String) :
    (k ∈ keysOf (mergeDicts a b) ↔ k ∈ keysOf a ∨ k ∈ keysOf b) ∧
    (∀ vb, getKey b k = some vb →
      getKey (mergeDicts a b) k =
        some (match getKey a k, vb with
          | some (Value.dict da), Value.dict db => Value.dict (mergeDicts da db)
          | _, _ => vb)) ∧
    (getKey b k = none → getKey (mergeDicts a b) k = getKey a k) := by
  refine ⟨mem_keysOf_mergeDicts a b k, ?_, ?_⟩
  · intro vb hvb
    rw [getKey_mergeDicts a b hb k, hvb]
    rcases hak : getKey a k with _ | va
    · cases vb <;> rfl
    · cases va <;> cases vb <;> rfl
  · intro hb0
    rw [getKey_mergeDicts a b hb k, hb0]
    rcases hak : getKey a k with _ | va
    · rfl
    · cases va <;> rfl

/-- Witness for C3 at concrete mappings exercising both the recursive
dict-merge case and plain overwriting. -/
theorem C3_merge_spec_witness :
    (keysOf [("n", Value.dict [("j", Value.int 2)]), ("y", Value.int 3)]).Nodup ∧
    ((("n" : String) ∈ keysOf (mergeDicts
        [("x", Value.int 1), ("n", Value.dict [("i", Value.int 1)])]
        [("n", Value.dict [("j", Value.int 2)]), ("y", Value.int 3)]) ↔
      ("n" : String) ∈ keysOf [("x", Value.int 1), ("n", Value.dict [("i", Value.int 1)])] ∨
      ("n" : String) ∈ keysOf [("n", Value.dict [("j", Value.int 2)]), ("y", Value.int 3)]) ∧
    (∀ vb, getKey [("n", Value.dict [("j", Value.int 2)]), ("y", Value.int 3)] "n" = some vb →
      getKey (mergeDicts
        [("x", Value.int 1), ("n", Value.dict [("i", Value.int 1)])]
        [("n", Value.dict [("j", Value.int 2)]), ("y", Value.int 3)]) "n" =
        some (match getKey [("x", Value.int 1), ("n", Value.dict [("i", Value.int 1)])] "n", vb with
          | some (Value.dict da), Value.dict db => Value.dict (mergeDicts da db)
          | _, _ => vb)) ∧
    (getKey [("n", Value.dict [("j", Value.int 2)]), ("y", Value.int 3)] "n" = none →
      getKey (mergeDicts
        [("x", Value.int 1), ("n", Value.dict [("i", Value.int 1)])]
        [("n", Value.dict [("j", Value.int 2)]), ("y", Value.int 3)]) "n" =
        getKey [("x", Value.int 1), ("n", Value.dict [("i", Value.int 1)])] "n")) :=
  ⟨by decide,
   C3_merge_spec [("x", Value.int 1), ("n", Value.dict [("i", Value.int 1)])]
     [("n", Value.dict [("j", Value.int 2)]), ("y", Value.int 3)] (by decide) "n"⟩

/-! ## Claim C1 -/

/-- The value the source stores for key `k` of the referencing mapping:
path-rewritten when a parent is given. -/
def rewrittenOwn (fs : FS) (par : Option String) (v : Value) : Value :=
  match par with
  | some p => resolvePathsValue fs p v
  | none => v

/-- Step 4 of `load_config`: the mapping is path-rewritten only when a
parent is given. -/
def rewrittenDict (fs : FS) (par : Option String) (d : Dict) : Dict :=
  match par with
  | some p => resolve_paths_recursively fs p d
  | none => d

/-- `run_load` with the path-rewriting step named. -/
theorem run_load' (fs : FS) (fuel : Nat) (cd : Dict) (cur : Value)
    (par : Option String) (sp : Option (List String)) :
    run fs (fuel + 1) (.load cd cur par sp) =
      if hasKey cd "config" then
        run fs fuel (.resolveKey ((getKey cd "config").getD .null) cur par sp) >>=
          fun current =>
            mergeDictionaries current (rewrittenDict fs par (eraseKey cd "config"))
      else
        mergeDictionaries cur (rewrittenDict fs par (eraseKey cd "config")) := by
  cases par <;> rfl

theorem getKey_rewrittenDict (fs : FS) (par : Option String) (d : Dict) (k : String) :
    getKey (rewrittenDict fs par d) k = (getKey d k).map (rewrittenOwn fs par) := by
  cases par with
  | none =>
    rcases h : getKey d k with _ | v <;> simp [rewrittenDict, rewrittenOwn, h]
  | some p =>
    rcases h : getKey d k with _ | v <;>
      simp [rewrittenDict, rewrittenOwn, getKey_resolve_paths, h]

theorem keysOf_rewrittenDict (fs : FS) (par : Option String) (d : Dict) :
    keysOf (rewrittenDict fs par d) = keysOf d := by
  cases par with
  | none => rfl
  | some p => exact keysOf_resolve_paths fs _ d

theorem getKey_ne_nil {d : Dict} {k : String} {v : Value} (h : getKey d k = some v) :
    d ≠ [] := by
  intro hd; subst hd; simp [getKey] at h

/-- **C1.** For every configuration mapping passed to `load_config` (with
any current mapping, parent and search paths), every key `k ≠ "config"`
of that mapping appears in the returned result bound to the referencing
mapping's own value — path-rewritten when a parent is given, and
recursively merged when both that value and the value already loaded for
`k` (in the intermediate dict `Rd` produced by resolving the `"config"`
key) are mappings.  Nothing loaded via `"config"` outranks the mapping
that referenced it. -/
theorem C1_own_keys_win (fs : FS) (fuel : Nat) (cd cur : Dict)
    (par : Option String) (sp : Option (List String)) (r : Value) (k : String) (v : Value)
    (hnd : (keysOf cd).Nodup) (hk : k ≠ "config") (hv : getKey cd k = some v)
    (hok : load_config fs fuel cd (.dict cur) par sp = .ok r) :
    ∃ Rd : Dict,
      (if hasKey cd "config" then
        resolve_config_key fs (fuel - 1) ((getKey cd "config").getD .null) (.dict cur) par sp
      else .ok (.dict cur)) = .ok (.dict Rd) ∧
      lookupValue r k =
        some (match getKey Rd k, rewrittenOwn fs par v with
          | some (Value.dict a), Value.dict w => Value.dict (mergeDicts a w)
          | _, w => w) := by
  cases fuel with
  | zero => exact absurd hok (by simp [load_config, run_zero])
  | succ f =>
    rw [load_config, run_load'] at hok
    have hCk : getKey (rewrittenDict fs par (eraseKey cd "config")) k =
        some (rewrittenOwn fs par v) := by
      rw [getKey_rewrittenDict, getKey_eraseKey]
      simp [hk, hv]
    have hCnd : (keysOf (rewrittenDict fs par (eraseKey cd "config"))).Nodup := by
      rw [keysOf_rewrittenDict]; exact nodup_keysOf_eraseKey hnd "config"
    by_cases hc : hasKey cd "config"
    · rw [if_pos hc] at hok
      obtain ⟨R, hR, hmerge⟩ := except_bind_ok.1 hok
      obtain ⟨Rd, hRd, hr⟩ := mergeDictionaries_ok (getKey_ne_nil hCk) hmerge
      subst hRd
      refine ⟨Rd, by simp [hc, resolve_config_key, hR], ?_⟩
      rw [hr]
      show getKey (mergeDicts Rd _) k = _
      rw [getKey_mergeDicts Rd _ hCnd k, hCk]
      rcases getKey Rd k with _ | va
      · cases rewrittenOwn fs par v <;> rfl
      · cases va <;> cases rewrittenOwn fs par v <;> rfl
    · rw [if_neg hc] at hok
      obtain ⟨Rd, hRd, hr⟩ := mergeDictionaries_ok (getKey_ne_nil hCk) hok
      have hcur : cur = Rd := Value.dict.inj hRd
      subst hcur
      refine ⟨cur, by simp [hc], ?_⟩
      rw [hr]
      show getKey (mergeDicts cur _) k = _
      rw [getKey_mergeDicts cur _ hCnd k, hCk]
      rcases getKey cur k with _ | va
      · cases rewrittenOwn fs par v <;> rfl
      · cases va <;> cases rewrittenOwn fs par v <;> rfl

/-- Witness for C1: a mapping with a `"config"` include whose own keys
survive, including the recursive-merge case for key `"n"`. -/
theorem C1_own_keys_win_witness :
    ((keysOf [("config", Value.str "a.yaml"), ("x", Value.int 1),
        ("n", Value.dict [("j", Value.int 2)])]).Nodup ∧
     ("n" : String) ≠ "config" ∧
     getKey [("config", Value.str "a.yaml"), ("x", Value.int 1),
        ("n", Value.dict [("j", Value.int 2)])] "n" = some (Value.dict [("j", Value.int 2)]) ∧
     load_config ⟨[("a.yaml", [("x", Value.int 9), ("n", Value.dict [("i", Value.int 1)])])], "/h"⟩
        9 [("config", Value.str "a.yaml"), ("x", Value.int 1),
           ("n", Value.dict [("j", Value.int 2)])] (.dict []) none none
       = .ok (.dict [("x", Value.int 1),
           ("n", Value.dict [("i", Value.int 1), ("j", Value.int 2)])])) ∧
    (∃ Rd : Dict,
      (if hasKey [("config", Value.str "a.yaml"), ("x", Value.int 1),
            ("n", Value.dict [("j", Value.int 2)])] "config" then
        resolve_config_key
          ⟨[("a.yaml", [("x", Value.int 9), ("n", Value.dict [("i", Value.int 1)])])], "/h"⟩
          (9 - 1)
          ((getKey [("config", Value.str "a.yaml"), ("x", Value.int 1),
              ("n", Value.dict [("j", Value.int 2)])] "config").getD .null)
          (.dict []) none none
      else .ok (.dict [])) = .ok (.dict Rd) ∧
      lookupValue (Value.dict [("x", Value.int 1),
          ("n", Value.dict [("i", Value.int 1), ("j", Value.int 2)])]) "n" =
        some (match getKey Rd "n",
            rewrittenOwn
              ⟨[("a.yaml", [("x", Value.int 9), ("n", Value.dict [("i", Value.int 1)])])], "/h"⟩
              none (Value.dict [("j", Value.int 2)]) with
          | some (Value.dict a), Value.dict w => Value.dict (mergeDicts a w)
          | _, w => w)) :=
  ⟨⟨by decide, by decide, rfl, rfl⟩,
   C1_own_keys_win
     ⟨[("a.yaml", [("x", Value.int 9), ("n", Value.dict [("i", Value.int 1)])])], "/h"⟩
     9 [("config", Value.str "a.yaml"), ("x", Value.int 1),
        ("n", Value.dict [("j", Value.int 2)])] [] none none
     (.dict [("x", Value.int 1), ("n", Value.dict [("i", Value.int 1), ("j", Value.int 2)])])
     "n" (Value.dict [("j", Value.int 2)]) (by decide) (by decide) rfl rfl⟩

/-! ## Further small lemmas -/

theorem run_ok_succ {fs : FS} {c : Call} {r : Value} :
    ∀ {fuel : Nat}, run fs fuel c = .ok r → ∃ f, fuel = f + 1 := by
  intro fuel h
  cases fuel with
  | zero => simp [run_zero] at h
  | succ f => exact ⟨f, rfl⟩

theorem eraseKey_of_none {d : Dict} {k : String} (h : getKey d k = none) :
    eraseKey d k = d := by
  induction d with
  | nil => rfl
  | cons hd rest ih =>
    obtain ⟨a, b⟩ := hd
    by_cases hak : a = k
    · subst hak; simp [getKey] at h
    · simp only [getKey, if_neg hak] at h
      simp [eraseKey, hak, ih h]

theorem isDict_rewrittenOwn (fs : FS) (par : Option String) {v : Value}
    (h : v.isDict = false) : (rewrittenOwn fs par v).isDict = false := by
  cases par with
  | none => exact h
  | some p =>
    cases v with
    | dict d => simp [Value.isDict] at h
    | str s =>
      simp only [rewrittenOwn, resolvePathsValue]
      split_ifs <;> rfl
    | int n => rfl
    | bool b => rfl
    | null => rfl
    | list l => rfl

/-- `resolve_path` with no search-path candidates left: the pre-loop
checks, falling through to the unresolved path. -/
def resolveNoSearch (fs : FS) (path : String) (parent : Option String) : String :=
  if isAbs path then normpath path
  else if strStarts path "~/" then normpath (expanduser fs path)
  else if (splitChar '/' path).headD "" = "." ∨ (splitChar '/' path).headD "" = ".." then
    normpath (joinPath (parent.getD ".") path)
  else path

theorem resolve_path_nilsp (fuel : Nat) (fs : FS) (path : String) (parent : Option String) :
    resolve_path fuel fs path parent (some []) = resolveNoSearch fs path parent := by
  cases fuel <;> rfl

theorem resolve_path_succ_unfold (fuel : Nat) (fs : FS) (path : String)
    (parent : Option String) (searchPaths : Option (List String)) :
    resolve_path (fuel + 1) fs path parent searchPaths =
      (if isAbs path then normpath path
      else if strStarts path "~/" then normpath (expanduser fs path)
      else if (splitChar '/' path).headD "" = "." ∨ (splitChar '/' path).headD "" = ".." then
        normpath (joinPath (parent.getD ".") path)
      else
        ((searchPaths.getD [".", ""]).findSome? fun sp =>
          let resolved := resolve_path fuel fs (joinPath sp path) parent (some [])
          if pathExists fs resolved then some (normpath resolved) else none).getD path) := rfl

theorem resolve_path_succ (fuel : Nat) (fs : FS) (path : String) (par : Option String)
    (sp : Option (List String)) :
    resolve_path (fuel + 1) fs path par sp = resolve_path 1 fs path par sp := by
  rw [resolve_path_succ_unfold fuel, resolve_path_succ_unfold 0]
  simp only [resolve_path_nilsp]

/-! ## Claim C2 -/

/-- **C2, counterexample.** Two sources in a `"config"` list both define
`"k"` (the first as `1`, the second as `2`) and the referencing mapping
does not.  The result holds the *later* source's value `2`, not the
earlier source's value `1` as the claim states: each later element is
loaded over the accumulated result and therefore has *higher* priority. -/
theorem C2_earlier_wins_counterexample :
    load_config ⟨[("a.yaml", [("k", Value.int 1)]), ("b.yaml", [("k", Value.int 2)])], "/h"⟩ 9
      [("config", Value.list [Value.str "a.yaml", Value.str "b.yaml"])] (.dict []) none none
      = .ok (.dict [("k", Value.int 2)]) ∧
    lookupValue (Value.dict [("k", Value.int 2)]) "k" = some (Value.int 2) ∧
    Value.int 2 ≠ Value.int 1 :=
  ⟨rfl, rfl, fun h => by injection h with h'; exact absurd h' (by decide)⟩

theorem except_bind_congr {α β : Type} {m : Except Err α} {f g : α → Except Err β}
    (h : ∀ a, f a = g a) : (m >>= f) = (m >>= g) := by
  cases m with
  | error e => rfl
  | ok a => exact h a

/-- The left-to-right fold of `_resolve_config_list` splits over list
append: the suffix is processed against the result accumulated on the
prefix (with correspondingly smaller fuel). -/
theorem run_resolveList_append (fs : FS) (par : Option String) (sp : Option (List String)) :
    ∀ (fuel : Nat) (l₁ l₂ : List Value) (cur : Value),
    run fs fuel (.resolveList (l₁ ++ l₂) cur par sp) =
      run fs fuel (.resolveList l₁ cur par sp) >>= fun c =>
        run fs (fuel - l₁.length) (.resolveList l₂ c par sp) := by
  intro fuel
  induction fuel with
  | zero =>
    intro l₁ l₂ cur
    rw [run_zero, run_zero]
    rfl
  | succ g ih =>
    intro l₁ l₂ cur
    cases l₁ with
    | nil =>
      rw [List.nil_append, run_resolveList_nil]
      rfl
    | cons e rest =>
      rw [List.cons_append, run_resolveList_cons, run_resolveList_cons]
      cases e with
      | str s =>
        simp only [List.length_cons, Nat.add_sub_add_right, bind_assoc]
        exact except_bind_congr (fun c => ih rest l₂ c)
      | list l' =>
        simp only [List.length_cons, Nat.add_sub_add_right, bind_assoc]
        exact except_bind_congr (fun c => ih rest l₂ c)
      | dict d =>
        simp only [List.length_cons, Nat.add_sub_add_right, bind_assoc]
        exact except_bind_congr (fun c => ih rest l₂ c)
      | int m =>
        simp only [List.length_cons, Nat.add_sub_add_right]
        exact ih rest l₂ cur
      | bool b =>
        simp only [List.length_cons, Nat.add_sub_add_right]
        exact ih rest l₂ cur
      | null =>
        simp only [List.length_cons, Nat.add_sub_add_right]
        exact ih rest l₂ cur

/-- A key of `added` whose value is not a mapping always survives a merge
verbatim, whatever `start` holds there. -/
theorem getKey_mergeDicts_of_not_dict {a b : Dict} {k : String} {w : Value}
    (hb : (keysOf b).Nodup) (hbk : getKey b k = some w) (hw : w.isDict = false) :
    getKey (mergeDicts a b) k = some w := by
  rw [getKey_mergeDicts a b hb k, hbk]
  rcases getKey a k with _ | va
  · cases w <;> simp_all [Value.isDict]
  · cases va <;> cases w <;> simp_all [Value.isDict]

/-- **C2, amended.** When the `"config"` key holds a sequence, the
sources are resolved left to right and each later element has *higher*
priority than every earlier one: whatever sources precede it, any key
defined by the last-listed file source with a non-mapping value and not
defined by the referencing mapping itself ends up in the result of
`load_config` bound to that last source's value (path-rewritten relative
to that source's directory).  The last source may itself include further
configs via its own `"config"` key — its own keys beat those includes
(claim C1 at the nested level).  All of it still ranks below the
referencing mapping's own keys. -/
theorem C2_later_listed_wins (fs : FS) (fuel : Nat) (cd : Dict) (cur : Value)
    (par : Option String) (sp : Option (List String)) (r : Value)
    (k p₂ : String) (pre : List Value) (d₂ : Dict) (v : Value)
    (hc : getKey cd "config" = some (.list (pre ++ [.str p₂])))
    (hnd : (keysOf cd).Nodup)
    (hk : getKey cd k = none)
    (hd₂ : fsLookup fs (resolve_path 1 fs p₂ par sp) = some d₂)
    (hnd₂ : (keysOf d₂).Nodup)
    (hvd : getKey d₂ k = some v)
    (hvnd : v.isDict = false)
    (hok : load_config fs fuel cd cur par sp = .ok r) :
    lookupValue r k =
      some (rewrittenOwn fs (some (dirname (resolve_path 1 fs p₂ par sp))) v) := by
  have hkc : k ≠ "config" := by
    intro h; rw [h, hc] at hk; exact Option.noConfusion hk
  obtain ⟨f, rfl⟩ := run_ok_succ (c := .load cd cur par sp) hok
  rw [load_config, run_load'] at hok
  rw [if_pos (by simp [hasKey, hc])] at hok
  obtain ⟨R₂, hR₂, hmerge⟩ := except_bind_ok.1 hok
  rw [hc] at hR₂
  obtain ⟨f₁, rfl⟩ := run_ok_succ hR₂
  replace hR₂ : run fs f₁ (.resolveList (pre ++ [.str p₂]) cur par sp) = .ok R₂ := hR₂
  rw [run_resolveList_append] at hR₂
  obtain ⟨R₁, hR₁, hrest⟩ := except_bind_ok.1 hR₂
  obtain ⟨f₃, hf₃⟩ := run_ok_succ hrest
  rw [hf₃] at hrest
  rw [run_resolveList_cons] at hrest
  obtain ⟨R₂', hload₂, hnil⟩ := except_bind_ok.1 hrest
  obtain ⟨f₄, rfl⟩ := run_ok_succ hnil
  rw [run_resolveList_nil] at hnil
  replace hnil : R₂' = R₂ := Except.ok.inj hnil
  subst hnil
  rw [run_loadFile, resolve_path_succ, hd₂] at hload₂
  obtain ⟨f₅, rfl⟩ := run_ok_succ hload₂
  replace hload₂ : run fs (f₅ + 1)
      (.load d₂ R₁ (some (dirname (resolve_path 1 fs p₂ par sp))) sp) = .ok R₂' := hload₂
  rw [run_load'] at hload₂
  have hCk : getKey (rewrittenDict fs (some (dirname (resolve_path 1 fs p₂ par sp)))
      (eraseKey d₂ "config")) k =
      some (rewrittenOwn fs (some (dirname (resolve_path 1 fs p₂ par sp))) v) := by
    rw [getKey_rewrittenDict, getKey_eraseKey]
    simp [hkc, hvd]
  have hndC₂ : (keysOf (rewrittenDict fs (some (dirname (resolve_path 1 fs p₂ par sp)))
      (eraseKey d₂ "config"))).Nodup := by
    rw [keysOf_rewrittenDict]
    exact nodup_keysOf_eraseKey hnd₂ "config"
  have hW := isDict_rewrittenOwn fs (some (dirname (resolve_path 1 fs p₂ par sp))) hvnd
  have hMw : ∃ M : Dict, R₂' = .dict M ∧ getKey M k =
      some (rewrittenOwn fs (some (dirname (resolve_path 1 fs p₂ par sp))) v) := by
    by_cases hc₂ : hasKey d₂ "config"
    · rw [if_pos hc₂] at hload₂
      obtain ⟨R', _, hmerge₂⟩ := except_bind_ok.1 hload₂
      obtain ⟨Rd, hRd, hR₂eq⟩ := mergeDictionaries_ok (getKey_ne_nil hCk) hmerge₂
      exact ⟨_, hR₂eq, getKey_mergeDicts_of_not_dict hndC₂ hCk hW⟩
    · rw [if_neg hc₂] at hload₂
      obtain ⟨Rd, hRd, hR₂eq⟩ := mergeDictionaries_ok (getKey_ne_nil hCk) hload₂
      exact ⟨_, hR₂eq, getKey_mergeDicts_of_not_dict hndC₂ hCk hW⟩
  obtain ⟨M, rfl, hM⟩ := hMw
  simp only [mergeDictionaries, Except.ok.injEq] at hmerge
  subst hmerge
  show getKey (mergeDicts _ _) k = _
  have hndC : (keysOf (rewrittenDict fs par (eraseKey cd "config"))).Nodup := by
    rw [keysOf_rewrittenDict]; exact nodup_keysOf_eraseKey hnd "config"
  rw [getKey_mergeDicts _ _ hndC k]
  have hCnone : getKey (rewrittenDict fs par (eraseKey cd "config")) k = none := by
    rw [getKey_rewrittenDict, getKey_eraseKey]
    simp [hkc, hk]
  rw [hCnone, hM]
  cases rewrittenOwn fs (some (dirname (resolve_path 1 fs p₂ par sp))) v <;> rfl

/-- Witness for the amended C2: `a.yaml` sets `k: 1`; the last-listed
`b.yaml` sets `k: 2` and itself includes `c.yaml` (which sets `k: 9`);
the result holds the last source's own value `2`. -/
theorem C2_later_listed_wins_witness :
    (getKey [("config", Value.list [Value.str "a.yaml", Value.str "b.yaml"])] "config"
        = some (.list ([Value.str "a.yaml"] ++ [Value.str "b.yaml"])) ∧
     fsLookup ⟨[("a.yaml", [("k", Value.int 1)]),
        ("b.yaml", [("config", Value.str "c.yaml"), ("k", Value.int 2)]),
        ("c.yaml", [("k", Value.int 9)])], "/h"⟩
        (resolve_path 1 ⟨[("a.yaml", [("k", Value.int 1)]),
          ("b.yaml", [("config", Value.str "c.yaml"), ("k", Value.int 2)]),
          ("c.yaml", [("k", Value.int 9)])], "/h"⟩
          "b.yaml" none none)
        = some [("config", Value.str "c.yaml"), ("k", Value.int 2)] ∧
     getKey [("config", Value.str "c.yaml"), ("k", Value.int 2)] "k" = some (Value.int 2) ∧
     load_config ⟨[("a.yaml", [("k", Value.int 1)]),
        ("b.yaml", [("config", Value.str "c.yaml"), ("k", Value.int 2)]),
        ("c.yaml", [("k", Value.int 9)])], "/h"⟩ 12
        [("config", Value.list [Value.str "a.yaml", Value.str "b.yaml"])] (.dict []) none none
       = .ok (.dict [("k", Value.int 2)])) ∧
    lookupValue (Value.dict [("k", Value.int 2)]) "k" =
      some (rewrittenOwn ⟨[("a.yaml", [("k", Value.int 1)]),
          ("b.yaml", [("config", Value.str "c.yaml"), ("k", Value.int 2)]),
          ("c.yaml", [("k", Value.int 9)])], "/h"⟩
        (some (dirname (resolve_path 1 ⟨[("a.yaml", [("k", Value.int 1)]),
          ("b.yaml", [("config", Value.str "c.yaml"), ("k", Value.int 2)]),
          ("c.yaml", [("k", Value.int 9)])], "/h"⟩
          "b.yaml" none none)))
        (Value.int 2)) :=
  ⟨⟨rfl, rfl, rfl, rfl⟩,
   C2_later_listed_wins
     ⟨[("a.yaml", [("k", Value.int 1)]),
       ("b.yaml", [("config", Value.str "c.yaml"), ("k", Value.int 2)]),
       ("c.yaml", [("k", Value.int 9)])], "/h"⟩ 12
     [("config", Value.list [Value.str "a.yaml", Value.str "b.yaml"])] (.dict []) none none
     (.dict [("k", Value.int 2)]) "k" "b.yaml" [Value.str "a.yaml"]
     [("config", Value.str "c.yaml"), ("k", Value.int 2)] (Value.int 2)
     rfl (by decide) rfl rfl (by decide) rfl rfl rfl⟩

/-! ## Claims C8 and C10 -/

theorem resolve_path_zero_unfold (fs : FS) (path : String)
    (parent : Option String) (searchPaths : Option (List String)) :
    resolve_path 0 fs path parent searchPaths =
      (if isAbs path then normpath path
      else if strStarts path "~/" then normpath (expanduser fs path)
      else if (splitChar '/' path).headD "" = "." ∨ (splitChar '/' path).headD "" = ".." then
        normpath (joinPath (parent.getD ".") path)
      else
        ((searchPaths.getD [".", ""]).findSome? fun _ => (none : Option String)).getD path) := rfl

theorem headD_splitChar_of_slash {path : String} (h : strStarts path "/" = true) :
    (splitChar '/' path).headD "" = "" := by
  rcases hcs : path.toList with _ | ⟨c, rest⟩
  · rw [strStarts, hcs] at h
    simp [charsStart] at h
  · rw [strStarts, hcs] at h
    rw [show ("/" : String).toList = ['/'] from rfl] at h
    simp only [charsStart, Bool.and_true, decide_eq_true_eq] at h
    rw [splitChar, hcs]
    simp [splitCharAux, h, List.asString]

theorem headD_splitChar_of_tilde {path : String} (h : strStarts path "~/" = true) :
    (splitChar '/' path).headD "" = "~" := by
  rcases hcs : path.toList with _ | ⟨c, rest⟩
  · rw [strStarts, hcs] at h
    simp [charsStart] at h
  · rw [strStarts, hcs] at h
    rw [show ("~/" : String).toList = ['~', '/'] from rfl] at h
    rcases hrest : rest with _ | ⟨c₂, rest₂⟩
    · rw [hrest] at h
      simp [charsStart] at h
    · rw [hrest] at h
      simp only [charsStart, Bool.and_true, Bool.and_eq_true, decide_eq_true_eq] at h
      obtain ⟨h₁, h₂⟩ := h
      rw [splitChar, hcs, hrest]
      subst h₁ h₂
      simp [splitCharAux, List.asString]

/-- **C8.** For every path string whose first `/`-separated segment is
`.` or `..`, `resolve_path` returns the normalization of
`join(parent, path)` with `parent` defaulting to `"."`; the result is
independent of the search paths and of the filesystem (no existence
check happens in this branch — the fuel argument, which only feeds the
search-path loop, is irrelevant). -/
theorem C8_explicit_relative (fuel : Nat) (fs : FS) (path : String)
    (par : Option String) (sp : Option (List String))
    (h : (splitChar '/' path).headD "" = "." ∨ (splitChar '/' path).headD "" = "..") :
    resolve_path fuel fs path par sp = normpath (joinPath (par.getD ".") path) := by
  have hab : ¬ (isAbs path = true) := by
    intro hia
    have hz := headD_splitChar_of_slash hia
    rcases h with h | h <;> rw [hz] at h <;> exact absurd h (by decide)
  have hth : ¬ (strStarts path "~/" = true) := by
    intro hia
    have hz := headD_splitChar_of_tilde hia
    rcases h with h | h <;> rw [hz] at h <;> exact absurd h (by decide)
  cases fuel with
  | zero =>
    rw [resolve_path_zero_unfold, if_neg hab, if_neg hth, if_pos h]
  | succ f =>
    rw [resolve_path_succ_unfold, if_neg hab, if_neg hth, if_pos h]

/-- Witness for C8: `resolve_path("./a.yaml", parent="sub")` equals
`normpath(join("sub", "./a.yaml"))` (which is `"sub/a.yaml"`) whatever
the filesystem. -/
theorem C8_explicit_relative_witness :
    ((splitChar '/' "./a.yaml").headD "" = "." ∨ (splitChar '/' "./a.yaml").headD "" = "..") ∧
    resolve_path 1 ⟨[], "/h"⟩ "./a.yaml" (some "sub") none =
      normpath (joinPath ((some "sub").getD ".") "./a.yaml") ∧
    normpath (joinPath ((some "sub").getD ".") "./a.yaml") = "sub/a.yaml" :=
  ⟨Or.inl rfl,
   C8_explicit_relative 1 ⟨[], "/h"⟩ "./a.yaml" (some "sub") none (Or.inl rfl),
   rfl⟩

/-- **C10.** `resolve_path` terminates on every input: in the fuel-guarded
embedding, any recursion allowance beyond one nested call gives the same
result (`resolve_path (fuel+1) = resolve_path 1`), and the single nested
call — made with an empty search-path list — equals the loop-free
`resolveNoSearch`, i.e. the search loop body never executes there.  The
source's recursion depth therefore never exceeds two frames, on any
path, parent, search paths, or filesystem. -/
theorem C10_resolve_path_terminates (fuel : Nat) (fs : FS) (path : String)
    (par : Option String) (sp : Option (List String)) :
    resolve_path (fuel + 1) fs path par sp = resolve_path 1 fs path par sp ∧
    (∀ g : Nat, ∀ q : String, resolve_path g fs q par (some []) = resolveNoSearch fs q par) :=
  ⟨resolve_path_succ fuel fs path par sp, fun g q => resolve_path_nilsp g fs q par⟩

/-! ## Claim C7 -/

/-- The three shapes the `"config"` key may legally hold. -/
def legalConfigShape : Value → Bool
  | .str _ => true
  | .list _ => true
  | .dict _ => true
  | _ => false

theorem mergeDictionaries_error {s : Value} {a : Dict} {e : Err} :
    mergeDictionaries s a = .error e → e = .pyTypeError := by
  cases s <;> simp only [mergeDictionaries] <;> intro h
  case dict d => exact absurd h (by simp)
  all_goals
    split_ifs at h
    exact (Except.error.inj h).symm

/-- Every `TypeError` the loader raises names the Python type of an
illegal `"config"` value: the only raise site is the final dispatch arm
of `_resolve_config_key`. -/
theorem run_typeError_names (fs : FS) :
    ∀ fuel c n, run fs fuel c = .error (.typeError n) →
      n = "int" ∨ n = "bool" ∨ n = "NoneType" := by
  intro fuel
  induction fuel with
  | zero =>
    intro c n h
    simp [run_zero] at h
  | succ f ih =>
    intro c n h
    cases c with
    | load cd cur par sp =>
      rw [run_load'] at h
      by_cases hc : hasKey cd "config"
      · rw [if_pos hc] at h
        rcases except_bind_error.1 h with h' | ⟨a, _, h'⟩
        · exact ih _ n h'
        · exact Err.noConfusion (mergeDictionaries_error h')
      · rw [if_neg hc] at h
        exact Err.noConfusion (mergeDictionaries_error h)
    | loadFile p cur par sp =>
      rw [run_loadFile] at h
      rcases hf : fsLookup fs (resolve_path (f + 1) fs p par sp) with _ | content
      · rw [hf] at h
        simp at h
      · rw [hf] at h
        exact ih _ n h
    | resolveKey v cur par sp =>
      cases v with
      | str s => exact ih _ n h
      | list l => exact ih _ n h
      | dict d => exact ih _ n h
      | int m =>
        replace h : (Except.error (Err.typeError "int") : Except Err Value)
            = .error (.typeError n) := h
        injection h with h'
        injection h' with h''
        exact Or.inl h''.symm
      | bool b =>
        replace h : (Except.error (Err.typeError "bool") : Except Err Value)
            = .error (.typeError n) := h
        injection h with h'
        injection h' with h''
        exact Or.inr (Or.inl h''.symm)
      | null =>
        replace h : (Except.error (Err.typeError "NoneType") : Except Err Value)
            = .error (.typeError n) := h
        injection h with h'
        injection h' with h''
        exact Or.inr (Or.inr h''.symm)
    | resolveList l cur par sp =>
      cases l with
      | nil => exact Except.noConfusion h
      | cons e rest =>
        rw [run_resolveList_cons] at h
        cases e with
        | str s => rcases except_bind_error.1 h with h' | ⟨a, _, h'⟩ <;> exact ih _ n h'
        | list l' => rcases except_bind_error.1 h with h' | ⟨a, _, h'⟩ <;> exact ih _ n h'
        | dict d => rcases except_bind_error.1 h with h' | ⟨a, _, h'⟩ <;> exact ih _ n h'
        | int m => exact ih _ n h
        | bool b => exact ih _ n h
        | null => exact ih _ n h
    | resolveDict d cur par sp =>
      cases d with
      | nil => exact Except.noConfusion h
      | cons hd rest =>
        obtain ⟨ns, e⟩ := hd
        rw [run_resolveDict_cons] at h
        cases cur with
        | dict cd =>
          cases e with
          | str s => rcases except_bind_error.1 h with h' | ⟨a, _, h'⟩ <;> exact ih _ n h'
          | list l => rcases except_bind_error.1 h with h' | ⟨a, _, h'⟩ <;> exact ih _ n h'
          | dict d' => rcases except_bind_error.1 h with h' | ⟨a, _, h'⟩ <;> exact ih _ n h'
          | int m => exact ih _ n h
          | bool b => exact ih _ n h
          | null => exact ih _ n h
        | str s => simp at h
        | int m => simp at h
        | bool b => simp at h
        | null => simp at h
        | list l => simp at h

/-- **C7.** `load_config` fails with the `TypeError` naming the offending
value's Python type if and only if the mapping's `"config"` key holds a
value that is neither a string, nor a sequence, nor a mapping (a number,
boolean, or null): dispatch on the three legal shapes never raises an
error naming that value's type, and without a `"config"` key no such
`TypeError` can arise at all. -/
theorem C7_invalid_config_reference (fs : FS) (fuel : Nat) (cd : Dict) (cur : Value)
    (par : Option String) (sp : Option (List String)) :
    (∀ v, getKey cd "config" = some v →
      (load_config fs (fuel + 2) cd cur par sp = .error (.typeError (pyType v)) ↔
        legalConfigShape v = false)) ∧
    (getKey cd "config" = none →
      ∀ n, load_config fs (fuel + 2) cd cur par sp ≠ .error (.typeError n)) := by
  have hstep : load_config fs (fuel + 2) cd cur par sp
      = run fs ((fuel + 1) + 1) (.load cd cur par sp) := rfl
  constructor
  · intro v hv
    constructor
    · intro h
      cases hs : legalConfigShape v
      · rfl
      · exfalso
        have hnames := run_typeError_names fs (fuel + 2) _ (pyType v) h
        cases v with
        | str s =>
          simp only [pyType] at hnames
          rcases hnames with h' | h' | h' <;> exact absurd h' (by decide)
        | list l =>
          simp only [pyType] at hnames
          rcases hnames with h' | h' | h' <;> exact absurd h' (by decide)
        | dict d =>
          simp only [pyType] at hnames
          rcases hnames with h' | h' | h' <;> exact absurd h' (by decide)
        | int m => simp [legalConfigShape] at hs
        | bool b => simp [legalConfigShape] at hs
        | null => simp [legalConfigShape] at hs
    · intro h
      rw [hstep, run_load', if_pos (by simp [hasKey, hv]), hv]
      cases v with
      | str s => simp [legalConfigShape] at h
      | list l => simp [legalConfigShape] at h
      | dict d => simp [legalConfigShape] at h
      | int m => rfl
      | bool b => rfl
      | null => rfl
  · intro hnone n heq
    rw [hstep, run_load', if_neg (by simp [hasKey, hnone])] at heq
    exact Err.noConfusion (mergeDictionaries_error heq)

/-- Witness for C7: an illegal value `5` triggers the named `TypeError`,
and a mapping without a `"config"` key never produces one. -/
theorem C7_invalid_config_reference_witness :
    (getKey [("config", Value.int 5)] "config" = some (Value.int 5) ∧
     (load_config ⟨[], "/h"⟩ (1 + 2) [("config", Value.int 5)] (.dict []) none none
        = .error (.typeError (pyType (Value.int 5))) ↔
      legalConfigShape (Value.int 5) = false)) ∧
    (getKey [("a", Value.int 1)] "config" = none ∧
     ∀ n, load_config ⟨[], "/h"⟩ (1 + 2) [("a", Value.int 1)] (.dict []) none none
        ≠ .error (.typeError n)) :=
  ⟨⟨rfl,
    (C7_invalid_config_reference ⟨[], "/h"⟩ 1 [("config", Value.int 5)]
      (.dict []) none none).1 (Value.int 5) rfl⟩,
   ⟨rfl,
    (C7_invalid_config_reference ⟨[], "/h"⟩ 1 [("a", Value.int 1)]
      (.dict []) none none).2 rfl⟩⟩

/-! ## Claim C4 -/

/-- **C4, counterexample.** A namespaced include `config: {ns: f.yaml}`
produces only the sub-mapping at `"ns"`; no auxiliary `"__path_ns__"`
key is present in the result, contrary to the claim. -/
theorem C4_no_path_key_counterexample :
    load_config ⟨[("f.yaml", [("a", Value.int 1)])], "/h"⟩ 9
      [("config", Value.dict [("ns", Value.str "f.yaml")])] (.dict []) none none
      = .ok (.dict [("ns", Value.dict [("a", Value.int 1)])]) ∧
    lookupValue (Value.dict [("ns", Value.dict [("a", Value.int 1)])]) "ns"
      = some (Value.dict [("a", Value.int 1)]) ∧
    lookupValue (Value.dict [("ns", Value.dict [("a", Value.int 1)])]) "__path_ns__" = none :=
  ⟨rfl, rfl, rfl⟩

/-- Key-set characterization of `_resolve_config_dict`: the result's keys
are exactly the current mapping's keys plus the namespace keys. -/
theorem resolveDict_keys (fs : FS) :
    ∀ (fuel : Nat) (d cur : Dict) (par : Option String) (sp : Option (List String)) (r : Value),
    resolve_config_dict fs fuel d (.dict cur) par sp = .ok r →
    ∃ rd : Dict, r = .dict rd ∧ ∀ k, k ∈ keysOf rd ↔ (k ∈ keysOf cur ∨ k ∈ keysOf d) := by
  intro fuel
  induction fuel with
  | zero =>
    intro d cur par sp r hok
    simp [resolve_config_dict, run_zero] at hok
  | succ f ih =>
    intro d cur par sp r hok
    replace hok : run fs (f + 1) (.resolveDict d (.dict cur) par sp) = .ok r := hok
    cases d with
    | nil =>
      rw [run_resolveDict_nil] at hok
      refine ⟨cur, (Except.ok.inj hok).symm, fun k => ?_⟩
      simp [keysOf]
    | cons hd rest =>
      obtain ⟨ns, e⟩ := hd
      rw [run_resolveDict_cons] at hok
      have main : ∀ sub : Value,
          run fs f (.resolveDict rest
            (.dict (setKey (if hasKey cur ns then cur else setKey cur ns (.dict [])) ns sub))
            par sp) = .ok r →
          ∃ rd : Dict, r = .dict rd ∧
            ∀ k, k ∈ keysOf rd ↔ (k ∈ keysOf cur ∨ k ∈ keysOf ((ns, e) :: rest)) := by
        intro sub hrest
        obtain ⟨rd, hr, hkeys⟩ := ih rest _ par sp r hrest
        refine ⟨rd, hr, fun k => ?_⟩
        rw [hkeys k, mem_keysOf_setKey,
          show keysOf ((ns, e) :: rest) = ns :: keysOf rest from rfl, List.mem_cons]
        by_cases hns : hasKey cur ns
        · have hmem : ns ∈ keysOf cur := (mem_keysOf cur ns).2 hns
          rw [if_pos hns]
          constructor
          · rintro ((h | h) | h)
            · exact Or.inl h
            · exact Or.inr (Or.inl h)
            · exact Or.inr (Or.inr h)
          · rintro (h | h | h)
            · exact Or.inl (Or.inl h)
            · exact Or.inl (Or.inr h)
            · exact Or.inr h
        · rw [if_neg hns, mem_keysOf_setKey]
          constructor
          · rintro (((h | h) | h) | h)
            · exact Or.inl h
            · exact Or.inr (Or.inl h)
            · exact Or.inr (Or.inl h)
            · exact Or.inr (Or.inr h)
          · rintro (h | h | h)
            · exact Or.inl (Or.inl (Or.inl h))
            · exact Or.inl (Or.inr h)
            · exact Or.inr h
      cases e with
      | str s =>
        obtain ⟨sub, _, hrest⟩ := except_bind_ok.1 hok
        exact main sub hrest
      | list l =>
        obtain ⟨sub, _, hrest⟩ := except_bind_ok.1 hok
        exact main sub hrest
      | dict d' =>
        obtain ⟨sub, _, hrest⟩ := except_bind_ok.1 hok
        exact main sub hrest
      | int m => exact main _ hok
      | bool b => exact main _ hok
      | null => exact main _ hok

/-- **C4, amended.** `_resolve_config_dict` records nothing besides the
namespace sub-mappings: the key set of its result is exactly the key set
of the current mapping united with the namespace keys; in particular no
auxiliary `__path_<namespace>__` key is ever injected. -/
theorem C4_resolver_adds_only_namespace_keys (fs : FS) (fuel : Nat) (d cur : Dict)
    (par : Option String) (sp : Option (List String)) (r : Value)
    (hok : resolve_config_dict fs fuel d (.dict cur) par sp = .ok r) :
    ∃ rd : Dict, r = .dict rd ∧ ∀ k, k ∈ keysOf rd ↔ (k ∈ keysOf cur ∨ k ∈ keysOf d) :=
  resolveDict_keys fs fuel d cur par sp r hok

/-- Witness for the amended C4 at a concrete namespaced include. -/
theorem C4_resolver_adds_only_namespace_keys_witness :
    (resolve_config_dict ⟨[("f.yaml", [("a", Value.int 1)])], "/h"⟩ 9
        [("ns", Value.str "f.yaml")] (.dict []) none none
      = .ok (.dict [("ns", Value.dict [("a", Value.int 1)])])) ∧
    ∃ rd : Dict, (Value.dict [("ns", Value.dict [("a", Value.int 1)])]) = .dict rd ∧
      ∀ k, k ∈ keysOf rd ↔
        (k ∈ keysOf ([] : Dict) ∨ k ∈ keysOf [("ns", Value.str "f.yaml")]) :=
  ⟨rfl,
   C4_resolver_adds_only_namespace_keys ⟨[("f.yaml", [("a", Value.int 1)])], "/h"⟩ 9
     [("ns", Value.str "f.yaml")] [] none none
     (Value.dict [("ns", Value.dict [("a", Value.int 1)])]) rfl⟩

/-! ## Claim C6 -/

/-- `run_resolveDict_cons` specialized to a string source and an actual
dict as current mapping. -/
theorem run_resolveDict_cons_str (fs : FS) (fuel : Nat) (ns s : String) (rest : Dict)
    (cur : Dict) (par : Option String) (sp : Option (List String)) :
    run fs (fuel + 1) (.resolveDict ((ns, .str s) :: rest) (.dict cur) par sp) =
      run fs fuel (.loadFile s
        ((getKey (if hasKey cur ns then cur else setKey cur ns (.dict [])) ns).getD .null)
        par sp) >>= fun newSub =>
        run fs fuel (.resolveDict rest
          (.dict (setKey (if hasKey cur ns then cur else setKey cur ns (.dict [])) ns newSub))
          par sp) := rfl

theorem rewrittenDict_ne_nil (fs : FS) (par : Option String) {d : Dict} (h : d ≠ []) :
    rewrittenDict fs par d ≠ [] := by
  cases par with
  | none => exact h
  | some p =>
    cases d with
    | nil => exact absurd rfl h
    | cons hd rest => simp [rewrittenDict, resolve_paths_recursively]

/-- **C6, counterexample.** A namespaced include whose namespace key
collides with an existing non-mapping root value (`ns: 5`) does *not*
overwrite that value with a fresh mapping: loading proceeds with `5` as
the current dict and fails with the dynamic `TypeError` of
`_merge_dictionaries` as soon as the file contributes a key. -/
theorem C6_collision_counterexample :
    load_config ⟨[("f.yaml", [("a", Value.int 1)])], "/h"⟩ 9
      [("config", Value.dict [("ns", Value.str "f.yaml")])]
      (.dict [("ns", Value.int 5)]) none none
      = .error .pyTypeError := rfl

/-- **C6, amended.** A namespaced include only nests, never merges at the
root: when the namespace key is absent, the source is loaded into a fresh
empty sub-mapping stored at the namespace key.  When the namespace key
collides with an existing root key whose value is *not* a mapping, that
value is **not** overwritten: it is passed as the current dict of the
include, and loading fails with the dynamic `TypeError` whenever the
included (config-free) mapping is non-empty. -/
theorem C6_namespace_nesting (fs : FS) (fuel : Nat) (ns path : String) (cur : Dict)
    (par : Option String) (sp : Option (List String)) :
    (∀ r : Value, getKey cur ns = none →
      resolve_config_dict fs (fuel + 1) [(ns, .str path)] (.dict cur) par sp = .ok r →
      ∃ sub, load_config_from_file fs fuel path (.dict []) par sp = .ok sub ∧
        r = .dict (setKey cur ns sub)) ∧
    (∀ (w : Value) (d' : Dict), getKey cur ns = some w → w.isDict = false →
      fsLookup fs (resolve_path 1 fs path par sp) = some d' →
      getKey d' "config" = none → d' ≠ [] →
      resolve_config_dict fs (fuel + 3) [(ns, .str path)] (.dict cur) par sp
        = .error .pyTypeError) := by
  constructor
  · intro r hnone hok
    replace hok : run fs (fuel + 1) (.resolveDict [(ns, .str path)] (.dict cur) par sp)
      = .ok r := hok
    rw [run_resolveDict_cons_str] at hok
    have hhk : hasKey cur ns = false := by simp [hasKey, hnone]
    simp only [hhk, Bool.false_eq_true, if_false, getKey_setKey, if_pos rfl,
      Option.getD_some] at hok
    obtain ⟨sub, hsub, hrest⟩ := except_bind_ok.1 hok
    obtain ⟨f', rfl⟩ := run_ok_succ hrest
    rw [run_resolveDict_nil] at hrest
    refine ⟨sub, hsub, ?_⟩
    rw [← Except.ok.inj hrest, setKey_setKey]
  · intro w d' hw hwnd hd' hnc hne
    have hstep : resolve_config_dict fs (fuel + 3) [(ns, .str path)] (.dict cur) par sp
        = run fs ((fuel + 2) + 1) (.resolveDict [(ns, .str path)] (.dict cur) par sp) := rfl
    rw [hstep, run_resolveDict_cons_str]
    have hhk : hasKey cur ns = true := by simp [hasKey, hw]
    simp only [hhk, if_true, hw, Option.getD_some]
    have hinner : run fs (fuel + 2) (.loadFile path w par sp) = .error .pyTypeError := by
      have hstep₂ : run fs (fuel + 2) (.loadFile path w par sp)
          = run fs ((fuel + 1) + 1) (.loadFile path w par sp) := rfl
      rw [hstep₂, run_loadFile, resolve_path_succ, hd']
      show run fs (fuel + 1)
        (.load d' w (some (dirname (resolve_path 1 fs path par sp))) sp) = _
      rw [run_load', if_neg (by simp [hasKey, hnc]), eraseKey_of_none hnc]
      have hne' := rewrittenDict_ne_nil fs (some (dirname (resolve_path 1 fs path par sp))) hne
      cases w with
      | dict wd => simp [Value.isDict] at hwnd
      | str s => simp [mergeDictionaries, List.isEmpty_iff, hne']
      | int m => simp [mergeDictionaries, List.isEmpty_iff, hne']
      | bool b => simp [mergeDictionaries, List.isEmpty_iff, hne']
      | null => simp [mergeDictionaries, List.isEmpty_iff, hne']
      | list l => simp [mergeDictionaries, List.isEmpty_iff, hne']
    rw [hinner]
    rfl

/-- Witness for the amended C6: the fresh-namespace case nests into an
empty mapping, and the concrete collision case fails with a `TypeError`. -/
theorem C6_namespace_nesting_witness :
    (getKey ([] : Dict) "ns" = none ∧
     resolve_config_dict ⟨[("f.yaml", [("a", Value.int 1)])], "/h"⟩ (8 + 1)
        [("ns", Value.str "f.yaml")] (.dict []) none none
       = .ok (.dict [("ns", Value.dict [("a", Value.int 1)])]) ∧
     ∃ sub, load_config_from_file ⟨[("f.yaml", [("a", Value.int 1)])], "/h"⟩ 8
          "f.yaml" (.dict []) none none = .ok sub ∧
        (Value.dict [("ns", Value.dict [("a", Value.int 1)])] : Value)
          = .dict (setKey [] "ns" sub)) ∧
    (getKey [("ns", Value.int 5)] "ns" = some (Value.int 5) ∧
     (Value.int 5).isDict = false ∧
     fsLookup ⟨[("f.yaml", [("a", Value.int 1)])], "/h"⟩
        (resolve_path 1 ⟨[("f.yaml", [("a", Value.int 1)])], "/h"⟩ "f.yaml" none none)
       = some [("a", Value.int 1)] ∧
     resolve_config_dict ⟨[("f.yaml", [("a", Value.int 1)])], "/h"⟩ (5 + 3)
        [("ns", Value.str "f.yaml")] (.dict [("ns", Value.int 5)]) none none
       = .error .pyTypeError) :=
  ⟨⟨rfl,
    rfl,
    (C6_namespace_nesting ⟨[("f.yaml", [("a", Value.int 1)])], "/h"⟩ 8 "ns" "f.yaml"
      [] none none).1
      (.dict [("ns", Value.dict [("a", Value.int 1)])]) rfl rfl⟩,
   ⟨rfl, rfl, rfl,
    (C6_namespace_nesting ⟨[("f.yaml", [("a", Value.int 1)])], "/h"⟩ 5 "ns" "f.yaml"
      [("ns", Value.int 5)] none none).2
      (Value.int 5) [("a", Value.int 1)] rfl rfl rfl rfl (by simp)⟩⟩

/-! ## Claim C5 -/

/-- **C5, counterexample.** The reserved key survives through the
*current* mapping: `load_config({}, {"config": 5})` does nothing to the
current dict's `"config"` entry (only the input mapping's own `"config"`
key is resolved and popped), so the returned mapping contains
`"config"`. -/
theorem C5_config_in_output_counterexample :
    load_config ⟨[], "/h"⟩ 5 [] (.dict [("config", Value.int 5)]) none none
      = .ok (.dict [("config", Value.int 5)]) ∧
    hasKeyValue (.dict [("config", Value.int 5)]) "config" = true := ⟨rfl, rfl⟩

mutual
/-- A legal `"config"` value that never uses `"config"` itself as a
namespace: strings are always fine, lists are checked element-wise, and a
namespace mapping must not use the key `"config"` (its sources only fill
sub-mappings, so they are unconstrained). -/
def nsClean : Value → Bool
  | .str _ => true
  | .list l => nsCleanList l
  | .dict d => !(hasKey d "config")
  | _ => true

/-- `nsClean` on every element of a `"config"` list. -/
def nsCleanList : List Value → Bool
  | [] => true
  | v :: rest => nsClean v && nsCleanList rest
end

/-- A mapping whose `"config"` value (if any) is `nsClean`. -/
def dictConfigClean (d : Dict) : Bool :=
  match getKey d "config" with
  | some v => nsClean v
  | none => true

/-- Every file of the environment parses to a `dictConfigClean` mapping. -/
def fsClean (fs : FS) : Bool :=
  fs.files.all (fun kv => dictConfigClean kv.2)

theorem fsClean_lookup {fs : FS} {p : String} {d : Dict}
    (hfs : fsClean fs = true) (h : fsLookup fs p = some d) :
    dictConfigClean d = true := by
  rw [fsLookup] at h
  rcases hf : fs.files.find? (fun kv => kv.1 = p) with _ | kv
  · rw [hf] at h; simp at h
  · rw [hf] at h
    have h2 : kv.2 = d := by simpa using h
    have hm := List.mem_of_find?_eq_some hf
    have := List.all_eq_true.1 hfs kv hm
    rw [← h2]
    exact this

theorem mergeDictionaries_no_config {cur : Value} {a : Dict} {r : Value}
    (hcur : hasKeyValue cur "config" = false) (ha : getKey a "config" = none)
    (hok : mergeDictionaries cur a = .ok r) : hasKeyValue r "config" = false := by
  cases cur
  case dict c =>
    replace hok : r = .dict (mergeDicts c a) := by
      simp only [mergeDictionaries, Except.ok.injEq] at hok
      exact hok.symm
    subst hok
    show (getKey (mergeDicts c a) "config").isSome = false
    have hnm : "config" ∉ keysOf (mergeDicts c a) := by
      rw [mem_keysOf_mergeDicts]
      rintro (h | h)
      · rw [mem_keysOf] at h
        exact absurd h (by simpa [hasKeyValue, lookupValue] using hcur)
      · rw [mem_keysOf, ha] at h
        simp at h
    rw [getKey_eq_none_of_not_mem hnm]
    rfl
  all_goals
    rcases a with _ | ⟨kv, rest⟩
    · simp only [mergeDictionaries, List.isEmpty_nil, if_true, Except.ok.injEq] at hok
      rw [← hok]
      exact hcur
    · simp [mergeDictionaries] at hok

theorem resolveDict_no_config {fs : FS} {fuel : Nat} {d : Dict} {cur : Value}
    {par : Option String} {sp : Option (List String)} {r : Value}
    (hd : hasKey d "config" = false) (hcur : hasKeyValue cur "config" = false)
    (hok : run fs fuel (.resolveDict d cur par sp) = .ok r) :
    hasKeyValue r "config" = false := by
  cases cur
  case dict c =>
    obtain ⟨rd, rfl, hkeys⟩ := resolveDict_keys fs fuel d c par sp r hok
    show (getKey rd "config").isSome = false
    have hnm : "config" ∉ keysOf rd := by
      rw [hkeys "config"]
      rintro (h | h)
      · rw [mem_keysOf] at h
        exact absurd h (by simpa [hasKeyValue, lookupValue] using hcur)
      · rw [mem_keysOf] at h
        exact absurd h (by simpa [hasKey] using hd)
    rw [getKey_eq_none_of_not_mem hnm]
    rfl
  all_goals
    obtain ⟨f, rfl⟩ := run_ok_succ hok
    rcases d with _ | ⟨⟨ns, e⟩, rest⟩
    · rw [run_resolveDict_nil] at hok
      rw [← Except.ok.inj hok]
      exact hcur
    · rw [run_resolveDict_cons] at hok
      exact Except.noConfusion hok

/-- Whether the arguments of a loader call are clean for the purposes of
the reserved-key invariant. -/
def cleanCall : Call → Bool
  | .load cd cur _ _ => dictConfigClean cd && !(hasKeyValue cur "config")
  | .loadFile _ cur _ _ => !(hasKeyValue cur "config")
  | .resolveKey v cur _ _ => nsClean v && !(hasKeyValue cur "config")
  | .resolveList l cur _ _ => nsCleanList l && !(hasKeyValue cur "config")
  | .resolveDict d cur _ _ => !(hasKey d "config") && !(hasKeyValue cur "config")

/-- The reserved-key invariant: over a clean environment, every clean
loader call that succeeds returns a mapping without a top-level
`"config"` key. -/
theorem run_no_config (fs : FS) (hfs : fsClean fs = true) :
    ∀ fuel c r, cleanCall c = true → run fs fuel c = .ok r →
      hasKeyValue r "config" = false := by
  intro fuel
  induction fuel with
  | zero =>
    intro c r _ h
    simp [run_zero] at h
  | succ f ih =>
    intro c r hclean hok
    cases c with
    | load cd cur par sp =>
      obtain ⟨hcd, hcur⟩ := by simpa [cleanCall] using hclean
      have hC : getKey (rewrittenDict fs par (eraseKey cd "config")) "config" = none := by
        rw [getKey_rewrittenDict, getKey_eraseKey]
        simp
      rw [run_load'] at hok
      by_cases hc : hasKey cd "config"
      · rw [if_pos hc] at hok
        obtain ⟨R, hR, hmerge⟩ := except_bind_ok.1 hok
        rcases hv : getKey cd "config" with _ | v
        · rw [hasKey, hv] at hc; simp at hc
        · have hvc : nsClean v = true := by
            rw [dictConfigClean, hv] at hcd
            exact hcd
          rw [hv] at hR
          have hRclean : hasKeyValue R "config" = false :=
            ih _ R (by simp [cleanCall, hvc, hcur]) hR
          exact mergeDictionaries_no_config hRclean hC hmerge
      · rw [if_neg hc] at hok
        exact mergeDictionaries_no_config hcur hC hok
    | loadFile p cur par sp =>
      have hcur : hasKeyValue cur "config" = false := by simpa [cleanCall] using hclean
      rw [run_loadFile] at hok
      rcases hf : fsLookup fs (resolve_path (f + 1) fs p par sp) with _ | content
      · rw [hf] at hok
        simp at hok
      · rw [hf] at hok
        exact ih _ r (by simp [cleanCall, fsClean_lookup hfs hf, hcur]) hok
    | resolveKey v cur par sp =>
      obtain ⟨hv, hcur⟩ := by simpa [cleanCall] using hclean
      cases v with
      | str s => exact ih _ r (by simp [cleanCall, hcur]) hok
      | list l =>
        have hl : nsCleanList l = true := by simpa [nsClean] using hv
        exact ih _ r (by simp [cleanCall, hl, hcur]) hok
      | dict d =>
        have hd : hasKey d "config" = false := by simpa [nsClean] using hv
        exact resolveDict_no_config hd hcur hok
      | int m => simp [run_resolveKey] at hok
      | bool b => simp [run_resolveKey] at hok
      | null => simp [run_resolveKey] at hok
    | resolveList l cur par sp =>
      obtain ⟨hl, hcur⟩ := by simpa [cleanCall] using hclean
      cases l with
      | nil =>
        rw [run_resolveList_nil] at hok
        rw [← Except.ok.inj hok]
        exact hcur
      | cons e rest =>
        obtain ⟨he, hrest⟩ := by simpa [nsCleanList] using hl
        rw [run_resolveList_cons] at hok
        cases e with
        | str s =>
          obtain ⟨a, ha, hrun⟩ := except_bind_ok.1 hok
          have haC : hasKeyValue a "config" = false :=
            ih _ a (by simp [cleanCall, hcur]) ha
          exact ih _ r (by simp [cleanCall, hrest, haC]) hrun
        | list l' =>
          obtain ⟨a, ha, hrun⟩ := except_bind_ok.1 hok
          have hl' : nsCleanList l' = true := by simpa [nsClean] using he
          have haC : hasKeyValue a "config" = false :=
            ih _ a (by simp [cleanCall, hl', hcur]) ha
          exact ih _ r (by simp [cleanCall, hrest, haC]) hrun
        | dict d =>
          obtain ⟨a, ha, hrun⟩ := except_bind_ok.1 hok
          have hd : hasKey d "config" = false := by simpa [nsClean] using he
          have haC : hasKeyValue a "config" = false := resolveDict_no_config hd hcur ha
          exact ih _ r (by simp [cleanCall, hrest, haC]) hrun
        | int m => exact ih _ r (by simp [cleanCall, hrest, hcur]) hok
        | bool b => exact ih _ r (by simp [cleanCall, hrest, hcur]) hok
        | null => exact ih _ r (by simp [cleanCall, hrest, hcur]) hok
    | resolveDict d cur par sp =>
      obtain ⟨hd, hcur⟩ := by simpa [cleanCall] using hclean
      exact resolveDict_no_config hd hcur hok

/-- **C5, amended.** For every input mapping whose `"config"` value (and
the `"config"` value of every file in the environment) never uses
`"config"` as a namespace key, and every current mapping without a
top-level `"config"` entry, the mapping returned by `load_config` does
not contain the reserved key `"config"`: the input mapping's `"config"`
key is removed after its sources are resolved and never appears in the
output. -/
theorem C5_no_config_key_in_output (fs : FS) (fuel : Nat) (cd : Dict) (cur : Value)
    (par : Option String) (sp : Option (List String)) (r : Value)
    (hfs : fsClean fs = true) (hcd : dictConfigClean cd = true)
    (hcur : hasKeyValue cur "config" = false)
    (hok : load_config fs fuel cd cur par sp = .ok r) :
    hasKeyValue r "config" = false :=
  run_no_config fs hfs fuel (.load cd cur par sp) r (by simp [cleanCall, hcd, hcur]) hok

/-- Witness for the amended C5 at a concrete include chain. -/
theorem C5_no_config_key_in_output_witness :
    (fsClean ⟨[("f.yaml", [("b", Value.int 2)])], "/h"⟩ = true ∧
     dictConfigClean [("config", Value.str "f.yaml"), ("a", Value.int 1)] = true ∧
     hasKeyValue (.dict []) "config" = false ∧
     load_config ⟨[("f.yaml", [("b", Value.int 2)])], "/h"⟩ 9
        [("config", Value.str "f.yaml"), ("a", Value.int 1)] (.dict []) none none
       = .ok (.dict [("b", Value.int 2), ("a", Value.int 1)])) ∧
    hasKeyValue (.dict [("b", Value.int 2), ("a", Value.int 1)]) "config" = false :=
  ⟨⟨rfl, rfl, rfl, rfl⟩,
   C5_no_config_key_in_output ⟨[("f.yaml", [("b", Value.int 2)])], "/h"⟩ 9
     [("config", Value.str "f.yaml"), ("a", Value.int 1)] (.dict []) none none
     (.dict [("b", Value.int 2), ("a", Value.int 1)]) rfl rfl rfl rfl⟩

/-! ## Claim C9 -/

/-- **C9.** For a declared option `test` with default `3` (converted with
`int`) and a declared option `config` without a default,
`load_config_from_args` yields `test == 3` when invoked with no
arguments; `test == 2` when invoked with `--config` naming a file that
sets `test` to `2`; and `test == 4` when additionally passed `--test 4`:
explicit command-line override > configuration file referenced via
`--config` > declared option default. -/
theorem C9_argument_precedence :
    load_config_from_args ⟨[("t2.yaml", [("test", Value.int 2)])], "/h"⟩ 20
      [⟨"test", some (Value.int 3), true⟩, ⟨"config", none, false⟩] [] none
      = .ok (.dict [("test", Value.int 3)]) ∧
    load_config_from_args ⟨[("t2.yaml", [("test", Value.int 2)])], "/h"⟩ 20
      [⟨"test", some (Value.int 3), true⟩, ⟨"config", none, false⟩]
      ["--config", "t2.yaml"] none
      = .ok (.dict [("test", Value.int 2)]) ∧
    load_config_from_args ⟨[("t2.yaml", [("test", Value.int 2)])], "/h"⟩ 20
      [⟨"test", some (Value.int 3), true⟩, ⟨"config", none, false⟩]
      ["--config", "t2.yaml", "--test", "4"] none
      = .ok (.dict [("test", Value.int 4)]) :=
  ⟨rfl, rfl, rfl⟩

/-! ## Validation against the repository's test suite

Concrete evaluations of the embedding mirroring behaviours asserted by
`tests/test_yoco.py` (merge precedence, list includes where the last
parent wins, namespacing, argument precedence, the usage error, and path
handling). -/

example : normpath "././t2.yaml" = "t2.yaml" := rfl
example : normpath "sub/./a.yaml" = "sub/a.yaml" := rfl
example : dirname "tests/a.yaml" = "tests" := rfl
example : dirname "a.yaml" = "" := rfl
example : dirname "/a" = "/" := rfl
example : joinPath "." "a.yaml" = "./a.yaml" := rfl
example : resolve_path 5 ⟨[("t2.yaml", [])], "/home/u"⟩ "t2.yaml" none none = "t2.yaml" := rfl
example : resolve_path 5 ⟨[], "/h"⟩ "./a.yaml" (some "sub") none = "sub/a.yaml" := rfl
example :
    load_config ⟨[("t2.yaml", [("test", .int 2)])], "/h"⟩ 9
      [("config", .str "t2.yaml"), ("test", .int 4)] (.dict []) none none
    = .ok (.dict [("test", .int 4)]) := rfl
example :
    load_config ⟨[("a.yaml", [("k", .int 1)]), ("b.yaml", [("k", .int 2)])], "/h"⟩ 9
      [("config", .list [.str "a.yaml", .str "b.yaml"])] (.dict []) none none
    = .ok (.dict [("k", .int 2)]) := rfl

-- mirror of test_config_from_parser first cases: unknown args
example :
    load_config_from_args ⟨[], "/h"⟩ 20 [] ["--a", "1"] none
    = .ok (.dict [("a", .int 1)]) := rfl

example :
    load_config_from_args ⟨[], "/h"⟩ 20 [] ["--a.b.c", "1"] none
    = .ok (.dict [("a", .dict [("b", .dict [("c", .int 1)])])]) := rfl

example :
    load_config_from_args ⟨[], "/h"⟩ 20 [] ["1", "--a"] none
    = .error .usageError := rfl

-- namespace loading mirror of test_namespaces (shape only)
example :
    load_config ⟨[("c1.yaml", [("p", .int 2)])], "/h"⟩ 9
      [("config", .dict [("ns_1", .str "c1.yaml")]), ("test_param_1", .int 5)]
      (.dict []) none none
    = .ok (.dict [("ns_1", .dict [("p", .int 2)]), ("test_param_1", .int 5)]) := rfl
